import Mathlib

/-!
Shallow embedding of the LLO reporting plugin (src/llo/plugin.go) of
chainlink-mercury, together with proofs settling the frozen claims about it.

Modelling conventions:

* Go maps are modelled as association lists `List (key × value)`.  The order
  of the list stands for the (arbitrary) iteration order of the Go map where
  the code ranges over a map; the content of the list is the content of the
  map.  Lookup takes the first matching key; all operations keep keys unique
  when the input keys are unique, matching real Go maps.
* A nil Go map behaves like an empty map for lookups and iteration; the one
  place where the code distinguishes nil from empty (the
  `outcome.ValidAfterSeconds == nil` check after a staging promotion) is
  modelled with an `Option` on the retirement report map.
* Machine integers: `uint32` values are `Nat` (no arithmetic overflows them
  in the code paths modelled), `int64` nanosecond timestamps are `Int`,
  `*big.Int` stream values are `Option Int` with `none` for a nil pointer.
* Go runtime panics (nil pointer dereference of `p.PredecessorConfigDigest`;
  comparing a nil `*big.Int` inside `sort.Slice`) are modelled as explicit
  error results distinguished from ordinary returned errors.
* The external chain-selectors table used by `IsReportable` and the external
  `PredecessorRetirementReportCache.CheckAttestedRetirementReport` are an
  abstract predicate and an abstract function parameter respectively.
* SHA-256 in `MakeChannelHash` is modelled as an injective encoding: the
  model returns the exact (length-prefixed, hence injective) byte string
  that the source feeds to the hash, rather than its 32-byte digest.
-/

/-- Association-list lookup, first matching key wins (Go map read). -/
def lookupA {α β : Type} [DecidableEq α] (k : α) : List (α × β) → Option β
  | [] => none
  | kv :: rest => if kv.1 = k then some kv.2 else lookupA k rest

/-- Association-list insert/overwrite (Go map write `m[k] = v`). -/
def insertA {α β : Type} [DecidableEq α] (k : α) (v : β) : List (α × β) → List (α × β)
  | [] => [(k, v)]
  | kv :: rest => if kv.1 = k then (k, v) :: rest else kv :: insertA k v rest

/-- Association-list delete (Go `delete(m, k)`); removes every binding of k. -/
def eraseA {α β : Type} [DecidableEq α] (k : α) : List (α × β) → List (α × β)
  | [] => []
  | kv :: rest => if kv.1 = k then eraseA k rest else kv :: eraseA k rest

/-- Increment a counter map entry (Go `m[k]++`, zero value when absent). -/
def bumpA {α : Type} [DecidableEq α] (k : α) : List (α × Nat) → List (α × Nat)
  | [] => [(k, 1)]
  | kv :: rest => if kv.1 = k then (kv.1, kv.2 + 1) :: rest else kv :: bumpA k rest

/-- Append a value to a list-valued map entry (Go `m[k] = append(m[k], v)`). -/
def pushA {α β : Type} [DecidableEq α] (k : α) (v : β) :
    List (α × List β) → List (α × List β)
  | [] => [(k, [v])]
  | kv :: rest => if kv.1 = k then (kv.1, kv.2 ++ [v]) :: rest else kv :: pushA k v rest

/-- Size limits on a single observation (src/llo/plugin.go lines 35-39). -/
def MAX_OBSERVATION_REMOVE_CHANNEL_IDS_LENGTH : Nat := 5

/-- Limit on channel definitions voted in per observation. -/
def MAX_OBSERVATION_ADD_CHANNEL_DEFINITIONS_LENGTH : Nat := 5

/-- Limit on stream values per observation. -/
def MAX_OBSERVATION_STREAM_VALUES_LENGTH : Nat := 1000

/-- Limit on the outcome channel-definition set (src/llo/plugin.go line 41). -/
def MAX_OUTCOME_CHANNEL_DEFINITIONS_LENGTH : Nat := 500

/-- Lifecycle stage constants (src/llo/plugin.go lines 58-62). -/
def LifeCycleStageStaging : String := "staging"

/-- Production lifecycle stage. -/
def LifeCycleStageProduction : String := "production"

/-- Retired lifecycle stage. -/
def LifeCycleStageRetired : String := "retired"

/-- A channel definition (report format tag, destination chain selector,
ordered stream ids); commontypes.ChannelDefinition. -/
structure ChannelDefinition where
  ReportFormat : String
  ChainSelector : Nat
  StreamIDs : List Nat
deriving DecidableEq, Repr

/-- A channel definition together with its channel id.  The Go field
`ChannelDefinition` is renamed `channelDefinition` to avoid shadowing the
type name. -/
structure ChannelDefinitionWithID where
  channelDefinition : ChannelDefinition
  ChannelID : Nat
deriving DecidableEq, Repr

/-- Big-endian 4-byte encoding of a u32 as used by binary.Write. -/
def beBytes4 (n : Nat) : List Nat :=
  [n / 16777216 % 256, n / 65536 % 256, n / 256 % 256, n % 256]

/-- Big-endian 8-byte encoding of a u64 as used by binary.Write. -/
def beBytes8 (n : Nat) : List Nat :=
  [n / 72057594037927936 % 256, n / 281474976710656 % 256, n / 1099511627776 % 256,
   n / 4294967296 % 256, n / 16777216 % 256, n / 65536 % 256, n / 256 % 256, n % 256]

/-- MakeChannelHash (src/llo/plugin.go lines 102-124).  The source computes
the SHA-256 digest of the byte string
channelID(u32 BE) ++ len(format)(u32 BE) ++ format bytes ++ chainSelector(u64 BE)
++ len(streamIDs)(u32 BE) ++ each streamID(u32 BE).  We model SHA-256 as an
injective function of its input and return the (length-prefixed, hence
injective) preimage itself; the format tags in use are ASCII so code points
coincide with bytes. -/
def MakeChannelHash (cd : ChannelDefinitionWithID) : List Nat :=
  beBytes4 cd.ChannelID
    ++ beBytes4 cd.channelDefinition.ReportFormat.length
    ++ cd.channelDefinition.ReportFormat.data.map (fun c => c.toNat)
    ++ beBytes8 cd.channelDefinition.ChainSelector
    ++ beBytes4 cd.channelDefinition.StreamIDs.length
    ++ (cd.channelDefinition.StreamIDs.map beBytes4).flatten

/-- One observed stream value: ObsResult[*big.Int].  `Val = none` models a
nil *big.Int pointer. -/
structure ObsResult where
  Valid : Bool
  Val : Option Int
deriving DecidableEq, Repr

/-- A decoded Observation (src/llo/plugin.go lines 261-275).  List order of
the map-typed fields models the arbitrary Go map iteration order. -/
structure Observation where
  AttestedPredecessorRetirement : List Nat
  ShouldRetire : Bool
  UnixTimestampNanoseconds : Int
  RemoveChannelIDs : List Nat
  AddChannelDefinitions : List (Nat × ChannelDefinition)
  StreamValues : List (Nat × ObsResult)
deriving DecidableEq, Repr

/-- A retirement report (src/llo/plugin.go lines 64-68).  `none` models a
nil ValidAfterSeconds map, which the promotion branch of Outcome treats
differently from an empty one. -/
structure RetirementReport where
  ValidAfterSeconds : Option (List (Nat × Nat))
deriving DecidableEq, Repr

/-- A decoded Outcome (src/llo/plugin.go lines 432-448). -/
structure Outcome where
  LifeCycleStage : String
  ObservationsTimestampNanoseconds : Int
  ChannelDefinitions : List (Nat × ChannelDefinition)
  ValidAfterSeconds : List (Nat × Nat)
  StreamMedians : List (Nat × Option Int)
deriving DecidableEq, Repr

/-- Conversion of a nanosecond timestamp to seconds with the u32 range check,
shared by Outcome.ObservationsTimestampSeconds.  Go computes
time.Unix(0, ns).Unix(), which is floor division by 1e9, then rejects values
outside [0, 2^32). -/
def timestampSecondsOfNanos (ns : Int) : Option Nat :=
  let result : Int := Int.fdiv ns 1000000000
  if 0 ≤ result ∧ result < 4294967296 then some result.toNat else none

/-- ObservationsTimestampSeconds (src/llo/plugin.go lines 451-457); `none`
models the error return. -/
def Outcome.ObservationsTimestampSeconds (out : Outcome) : Option Nat :=
  timestampSecondsOfNanos out.ObservationsTimestampNanoseconds

/-- IsReportable (src/llo/plugin.go lines 461-498); `true` models a nil
error (the channel is reportable).  `knownChainSelector` abstracts the
external chain-selectors table consulted by ChainIdFromSelector. -/
def Outcome.IsReportable (knownChainSelector : Nat → Bool) (out : Outcome)
    (channelID : Nat) : Bool :=
  if out.LifeCycleStage = LifeCycleStageRetired then false
  else
    match Outcome.ObservationsTimestampSeconds out with
    | none => false
    | some observationsTimestampSeconds =>
      match lookupA channelID out.ChannelDefinitions with
      | none => false
      | some channelDefinition =>
        if ¬ knownChainSelector channelDefinition.ChainSelector then false
        else if channelDefinition.StreamIDs.any
            (fun streamID => ((lookupA streamID out.StreamMedians).getD none) = none) then
          false
        else
          match lookupA channelID out.ValidAfterSeconds with
          | none => false
          | some validAfterSeconds =>
            if observationsTimestampSeconds ≤ validAfterSeconds then false else true

/-- The plugin state used by Outcome: the predecessor config digest (a nil
pointer is `none`), the fault bound F, and the external retirement-report
verification function (an error return is `none`). -/
structure LLOPlugin where
  PredecessorConfigDigest : Option Nat
  F : Nat
  CheckAttestedRetirementReport : Nat → List Nat → Option RetirementReport

/-- ValidateObservation (src/llo/plugin.go lines 391-430) at the level of a
decoded observation; `true` models a nil error.  The raw-bytes concerns
(JSON well-formedness, the seqNr <= 1 emptiness check) live below the level
of this embedding, which starts from decoded observations. -/
def ValidateObservation (PredecessorConfigDigest : Option Nat)
    (observation : Observation) : Bool :=
  if PredecessorConfigDigest = none ∧ observation.AttestedPredecessorRetirement ≠ [] then
    false
  else if MAX_OBSERVATION_ADD_CHANNEL_DEFINITIONS_LENGTH <
      observation.AddChannelDefinitions.length then false
  else if MAX_OBSERVATION_REMOVE_CHANNEL_IDS_LENGTH <
      observation.RemoveChannelIDs.length then false
  else if MAX_OBSERVATION_STREAM_VALUES_LENGTH < observation.StreamValues.length then false
  else if observation.StreamValues.any (fun sv => sv.2.Valid ∧ sv.2.Val = none) then false
  else true

/-- The per-round accumulators built by the observation loop of Outcome
(src/llo/plugin.go lines 568-625).  Channel hashes are the `MakeChannelHash`
values (modelled as hash preimages, see above). -/
structure OutcomeAccum where
  validPredecessorRetirementReport : Option RetirementReport
  shouldRetireVotes : Nat
  timestampsNanoseconds : List Int
  removeChannelVotesByID : List (Nat × Nat)
  addChannelVotesByHash : List (List Nat × Nat)
  addChannelDefinitionsByHash : List (List Nat × ChannelDefinitionWithID)
  streamObservations : List (Nat × List (Option Int))
deriving DecidableEq, Repr

/-- The empty accumulators at the start of the observation loop. -/
def initialOutcomeAccum : OutcomeAccum :=
  { validPredecessorRetirementReport := none
    shouldRetireVotes := 0
    timestampsNanoseconds := []
    removeChannelVotesByID := []
    addChannelVotesByHash := []
    addChannelDefinitionsByHash := []
    streamObservations := [] }

/-- One iteration of the observation loop of Outcome
(src/llo/plugin.go lines 583-625) for an observation that decoded
successfully.  Result `none` models the Go panic dereferencing the nil
`p.PredecessorConfigDigest` at line 592.  When the attested retirement
report fails verification the source executes `continue`, dropping the
whole observation: we return the accumulators unchanged. -/
def processObservation (p : LLOPlugin) (acc : OutcomeAccum)
    (observation : Observation) : Option OutcomeAccum :=
  let retirementStep : Option (Option RetirementReport × Bool) :=
    if observation.AttestedPredecessorRetirement ≠ [] ∧
        acc.validPredecessorRetirementReport = none then
      match p.PredecessorConfigDigest with
      | none => none
      | some pcd =>
        match p.CheckAttestedRetirementReport pcd
            observation.AttestedPredecessorRetirement with
        | none => some (none, true)
        | some retirementReport => some (some retirementReport, false)
    else some (acc.validPredecessorRetirementReport, false)
  match retirementStep with
  | none => none
  | some (_, true) => some acc
  | some (newReport, false) =>
    let acc1 := { acc with validPredecessorRetirementReport := newReport }
    let acc2 :=
      if observation.ShouldRetire then
        { acc1 with shouldRetireVotes := acc1.shouldRetireVotes + 1 }
      else acc1
    let acc3 := { acc2 with
      timestampsNanoseconds :=
        acc2.timestampsNanoseconds ++ [observation.UnixTimestampNanoseconds] }
    let acc4 := { acc3 with
      removeChannelVotesByID :=
        observation.RemoveChannelIDs.foldl
          (fun m channelID => bumpA channelID m) acc3.removeChannelVotesByID }
    let acc5 :=
      observation.AddChannelDefinitions.foldl
        (fun a cidcd =>
          let defWithID : ChannelDefinitionWithID := ⟨cidcd.2, cidcd.1⟩
          let channelHash := MakeChannelHash defWithID
          { a with
            addChannelVotesByHash := bumpA channelHash a.addChannelVotesByHash
            addChannelDefinitionsByHash :=
              insertA channelHash defWithID a.addChannelDefinitionsByHash })
        acc4
    let acc6 :=
      observation.StreamValues.foldl
        (fun a sv =>
          if sv.2.Valid then
            { a with streamObservations := pushA sv.1 sv.2.Val a.streamObservations }
          else a)
        acc5
    some acc6

/-- The observation loop of Outcome over the attributed observations, in
slice order.  A `none` entry models an observation whose JSON failed to
decode (logged and skipped).  Result `none` models the panic of
`processObservation`. -/
def accumulateFrom (p : LLOPlugin) (acc : OutcomeAccum) :
    List (Option Observation) → Option OutcomeAccum
  | [] => some acc
  | none :: rest => accumulateFrom p acc rest
  | some observation :: rest =>
    match processObservation p acc observation with
    | none => none
    | some acc2 => accumulateFrom p acc2 rest

/-- The result of the sort.Slice over one stream id of the StreamMedians
loop (src/llo/plugin.go line 756).  When all values are non-nil this is the
ascending sort; otherwise (only reachable for lists of length < 2, where
the sort performs no comparison) the list is unchanged. -/
def goSortStreamValues (observations : List (Option Int)) : List (Option Int) :=
  if observations.all (fun v => v.isSome) then
    (List.insertionSort (fun a b => a ≤ b)
      (observations.filterMap (fun v => v))).map some
  else observations

/-- The StreamMedians loop (src/llo/plugin.go lines 754-768).  Result `none`
models the Go panic of `(*big.Int).Cmp` on a nil value inside sort.Slice:
with at least two elements every element takes part in a comparison, with
fewer no comparison happens. -/
def computeStreamMedians (F : Nat) :
    List (Nat × List (Option Int)) → Option (List (Nat × Option Int))
  | [] => some []
  | (streamID, observations) :: rest =>
    if 2 ≤ observations.length ∧ observations.any (fun v => v = none) then none
    else
      match computeStreamMedians F rest with
      | none => none
      | some streamMedians =>
        if observations.length ≤ F then some streamMedians
        else
          some (insertA streamID
            ((goSortStreamValues observations).getD (observations.length / 2) none)
            streamMedians)

/-- Errors and panics of Outcome.  The `panic` constructors model Go runtime
panics, the rest model returned errors. -/
inductive OutcomeError where
  | tooFewObservations
  | invalidPreviousOutcome
  | noValidObservations
  | previousTimestampOverflow
  | timestampOverflow
  | panicNilPredecessorConfigDigest
  | panicNilStreamValueCompare
deriving DecidableEq, Repr

/-- Whether an OutcomeError models a Go runtime panic rather than a
returned error. -/
def OutcomeError.isPanic : OutcomeError → Bool
  | .panicNilPredecessorConfigDigest => true
  | .panicNilStreamValueCompare => true
  | _ => false

/-- Lifecycle update of Outcome (src/llo/plugin.go lines 636-649): the
resulting stage together with the ValidAfterSeconds override installed by a
staging-to-production promotion (`none` when ValidAfterSeconds was not
overwritten, including the case of a nil map inside the retirement
report). -/
def outcomeStageAndOverride (p : LLOPlugin) (previousOutcome : Outcome)
    (acc : OutcomeAccum) : String × Option (List (Nat × Nat)) :=
  let stageAndVas : String × Option (List (Nat × Nat)) :=
    match acc.validPredecessorRetirementReport with
    | some retirementReport =>
      if previousOutcome.LifeCycleStage = LifeCycleStageStaging then
        (LifeCycleStageProduction, retirementReport.ValidAfterSeconds)
      else (previousOutcome.LifeCycleStage, none)
    | none => (previousOutcome.LifeCycleStage, none)
  if stageAndVas.1 = LifeCycleStageProduction ∧ p.F < acc.shouldRetireVotes then
    (LifeCycleStageRetired, stageAndVas.2)
  else stageAndVas

/-- The outcome observations timestamp: median of the sorted per-observation
timestamps, rank len/2 (src/llo/plugin.go lines 653-654). -/
def outcomeTimestampNs (acc : OutcomeAccum) : Int :=
  let sortedTimestamps :=
    List.insertionSort (fun a b => a ≤ b) acc.timestampsNanoseconds
  sortedTimestamps.getD (sortedTimestamps.length / 2) 0

/-- The channel ids removed by more than F votes (src/llo/plugin.go lines
669-676); empty when the round ends retired, because the vote maps are
cleared first (line 666). -/
def outcomeRemovedChannelIDs (p : LLOPlugin) (stage : String)
    (acc : OutcomeAccum) : List Nat :=
  let removeChannelVotesByID :=
    if stage = LifeCycleStageRetired then [] else acc.removeChannelVotesByID
  (removeChannelVotesByID.filter (fun kv => p.F < kv.2)).map (fun kv => kv.1)

/-- One step of the channel-addition loop (src/llo/plugin.go lines 678-698):
skip unless more than F votes; skip on a conflicting existing id; skip when
the definition set already has more than 500 entries (a strict check, so 501
is attainable); otherwise insert. -/
def addChannelStep (F : Nat) (addChannelVotesByHash : List (List Nat × Nat))
    (m : List (Nat × ChannelDefinition)) (hdw : List Nat × ChannelDefinitionWithID) :
    List (Nat × ChannelDefinition) :=
  if (lookupA hdw.1 addChannelVotesByHash).getD 0 ≤ F then m
  else if (lookupA hdw.2.ChannelID m).isSome then m
  else if MAX_OUTCOME_CHANNEL_DEFINITIONS_LENGTH < m.length then m
  else insertA hdw.2.ChannelID hdw.2.channelDefinition m

/-- The outcome channel definitions (src/llo/plugin.go lines 659-698):
previous definitions, minus removal votes, plus addition votes applied in
the Go map iteration order, which the parameter `addOrder` makes explicit
(the source ranges over `addChannelDefinitionsByHash` unsorted). -/
def outcomeChannelDefinitions (p : LLOPlugin)
    (addOrder : List (List Nat × ChannelDefinitionWithID) →
      List (List Nat × ChannelDefinitionWithID))
    (previousOutcome : Outcome) (stage : String) (acc : OutcomeAccum) :
    List (Nat × ChannelDefinition) :=
  let addChannelDefinitionsByHash :=
    if stage = LifeCycleStageRetired then [] else acc.addChannelDefinitionsByHash
  let defs1 :=
    (outcomeRemovedChannelIDs p stage acc).foldl
      (fun m channelID => eraseA channelID m) previousOutcome.ChannelDefinitions
  (addOrder addChannelDefinitionsByHash).foldl
    (addChannelStep p.F acc.addChannelVotesByHash) defs1

/-- One step of the ValidAfterSeconds recompute loop (src/llo/plugin.go
lines 714-725).  NOTE the source branch bodies: a channel that is NOT
reportable gets the previous observations timestamp, a reportable one
inherits its previous value unchanged (the inline comments of the source
say the opposite of its condition). -/
def vasRecomputeStep (knownChainSelector : Nat → Bool)
    (previousForReportable : Outcome) (previousObservationsTimestampSeconds : Nat)
    (vas : List (Nat × Nat)) (kv : Nat × Nat) : List (Nat × Nat) :=
  if Outcome.IsReportable knownChainSelector previousForReportable kv.1 then
    insertA kv.1 kv.2 vas
  else insertA kv.1 previousObservationsTimestampSeconds vas

/-- The ValidAfterSeconds base map (src/llo/plugin.go lines 707-726): the
promotion override when one was installed, otherwise the recompute from the
previous outcome.  In Go `outcome.ChannelDefinitions` aliases the previous
outcome map, so the IsReportable calls here see the post-vote definitions
`defs`. -/
def outcomeVasStart (knownChainSelector : Nat → Bool)
    (previousOutcome : Outcome) (override : Option (List (Nat × Nat)))
    (defs : List (Nat × ChannelDefinition)) :
    Except OutcomeError (List (Nat × Nat)) :=
  match override with
  | some vas => .ok vas
  | none =>
    match Outcome.ObservationsTimestampSeconds previousOutcome with
    | none => .error .previousTimestampOverflow
    | some previousObservationsTimestampSeconds =>
      let previousWithUpdatedDefs := { previousOutcome with ChannelDefinitions := defs }
      .ok (previousOutcome.ValidAfterSeconds.foldl
        (vasRecomputeStep knownChainSelector previousWithUpdatedDefs
          previousObservationsTimestampSeconds) [])

/-- One step of the new-channel loop (src/llo/plugin.go lines 733-738):
channels without a ValidAfterSeconds entry get the current observations
timestamp; existing entries are left alone. -/
def fillNewChannelStep (observationsTimestampSeconds : Nat)
    (vas : List (Nat × Nat)) (kv : Nat × ChannelDefinition) : List (Nat × Nat) :=
  if (lookupA kv.1 vas).isSome then vas
  else insertA kv.1 observationsTimestampSeconds vas

/-- Everything Outcome does after the observation loop
(src/llo/plugin.go lines 627-771), for seq > 1, on decoded data. -/
def buildOutcome (p : LLOPlugin) (knownChainSelector : Nat → Bool)
    (addOrder : List (List Nat × ChannelDefinitionWithID) →
      List (List Nat × ChannelDefinitionWithID))
    (previousOutcome : Outcome) (acc : OutcomeAccum) :
    Except OutcomeError Outcome :=
  if acc.timestampsNanoseconds.length = 0 then .error .noValidObservations
  else
    match outcomeVasStart knownChainSelector previousOutcome
        (outcomeStageAndOverride p previousOutcome acc).2
        (outcomeChannelDefinitions p addOrder previousOutcome
          (outcomeStageAndOverride p previousOutcome acc).1 acc) with
    | .error e => .error e
    | .ok vas0 =>
      match timestampSecondsOfNanos (outcomeTimestampNs acc) with
      | none => .error .timestampOverflow
      | some observationsTimestampSeconds =>
        match computeStreamMedians p.F acc.streamObservations with
        | none => .error .panicNilStreamValueCompare
        | some streamMedians =>
          .ok { LifeCycleStage := (outcomeStageAndOverride p previousOutcome acc).1
                ObservationsTimestampNanoseconds := outcomeTimestampNs acc
                ChannelDefinitions := outcomeChannelDefinitions p addOrder previousOutcome
                  (outcomeStageAndOverride p previousOutcome acc).1 acc
                ValidAfterSeconds :=
                  (outcomeRemovedChannelIDs p
                      (outcomeStageAndOverride p previousOutcome acc).1 acc).foldl
                    (fun vas channelID => eraseA channelID vas)
                    ((outcomeChannelDefinitions p addOrder previousOutcome
                        (outcomeStageAndOverride p previousOutcome acc).1 acc).foldl
                      (fillNewChannelStep observationsTimestampSeconds) vas0)
                StreamMedians := streamMedians }

/-- Outcome (src/llo/plugin.go lines 532-771) on decoded data.
`previousOutcome = none` models previous-outcome bytes that fail to decode.
`addOrder` makes the Go map iteration order of the channel-addition loop
explicit; every other map the function ranges over influences the result
only through its contents. -/
def LLOPlugin.Outcome (p : LLOPlugin) (knownChainSelector : Nat → Bool)
    (addOrder : List (List Nat × ChannelDefinitionWithID) →
      List (List Nat × ChannelDefinitionWithID))
    (seqNr : Nat) (previousOutcome : Option Outcome)
    (aos : List (Option Observation)) : Except OutcomeError Outcome :=
  if aos.length < 2 * p.F + 1 then .error .tooFewObservations
  else if seqNr ≤ 1 then
    .ok { LifeCycleStage :=
            if p.PredecessorConfigDigest = none then LifeCycleStageProduction
            else LifeCycleStageStaging
          ObservationsTimestampNanoseconds := 0
          ChannelDefinitions := []
          ValidAfterSeconds := []
          StreamMedians := [] }
  else
    match previousOutcome with
    | none => .error .invalidPreviousOutcome
    | some prev =>
      match accumulateFrom p initialOutcomeAccum aos with
      | none => .error .panicNilPredecessorConfigDigest
      | some acc => buildOutcome p knownChainSelector addOrder prev acc

/-- subtractChannelDefinitions (src/llo/plugin.go lines 913-936): the
entries of the minuend absent from the subtrahend, sorted ascending by
channel id, truncated to the limit. -/
def subtractChannelDefinitions (minuend subtrahend : List (Nat × ChannelDefinition))
    (limit : Nat) : List (Nat × ChannelDefinition) :=
  let differenceList := minuend.filter (fun kv => (lookupA kv.1 subtrahend).isNone)
  (List.insertionSort (fun a b => a.1 ≤ b.1) differenceList).take limit

/-- The loop over the previous ValidAfterSeconds keys of the Observation
builder (src/llo/plugin.go lines 335-342): stop once the remove set has 5
entries, then add ids absent from the expected definitions. -/
def buildRemoveChannelIDsLoop (expectedChannelDefs : List (Nat × ChannelDefinition)) :
    List Nat → List Nat → List Nat
  | acc, [] => acc
  | acc, channelID :: rest =>
    if MAX_OBSERVATION_REMOVE_CHANNEL_IDS_LENGTH ≤ acc.length then acc
    else if (lookupA channelID expectedChannelDefs).isSome then
      buildRemoveChannelIDsLoop expectedChannelDefs acc rest
    else if channelID ∈ acc then buildRemoveChannelIDsLoop expectedChannelDefs acc rest
    else buildRemoveChannelIDsLoop expectedChannelDefs (acc ++ [channelID]) rest

/-- The remove-channel-ids vote set built by the Observation builder
(src/llo/plugin.go lines 323-342), as the list of inserted ids.
`previousValidAfterSecondsKeys` is the key sequence of the Go map iteration
over the previous ValidAfterSeconds, whose order is arbitrary. -/
def buildRemoveChannelIDs (previousChannelDefinitions : List (Nat × ChannelDefinition))
    (previousValidAfterSecondsKeys : List Nat)
    (expectedChannelDefs : List (Nat × ChannelDefinition)) : List Nat :=
  let removeChannelDefinitions :=
    subtractChannelDefinitions previousChannelDefinitions expectedChannelDefs
      MAX_OBSERVATION_REMOVE_CHANNEL_IDS_LENGTH
  buildRemoveChannelIDsLoop expectedChannelDefs
    (removeChannelDefinitions.map Prod.fst) previousValidAfterSecondsKeys

/-- Canonical form of an outcome for byte-level comparison: golang json
serializes maps with sorted keys, so two outcomes marshal to the same bytes
exactly when their canonical forms agree. -/
def canonOutcome (out : Outcome) : Outcome :=
  { out with
    ChannelDefinitions :=
      List.insertionSort (fun a b => a.1 ≤ b.1) out.ChannelDefinitions
    ValidAfterSeconds :=
      List.insertionSort (fun a b => a.1 ≤ b.1) out.ValidAfterSeconds
    StreamMedians := List.insertionSort (fun a b => a.1 ≤ b.1) out.StreamMedians }

/-- The ValidAfterSeconds entry of a channel in an Outcome result, for
stating concrete evaluations. -/
def resultValidAfter (r : Except OutcomeError Outcome) (channelID : Nat) : Option Nat :=
  match r with
  | .ok out => lookupA channelID out.ValidAfterSeconds
  | .error _ => none

/-- The lifecycle stage of an Outcome result. -/
def resultStage (r : Except OutcomeError Outcome) : Option String :=
  match r with
  | .ok out => some out.LifeCycleStage
  | .error _ => none

/-- The observations timestamp of an Outcome result. -/
def resultTimestampNs (r : Except OutcomeError Outcome) : Option Int :=
  match r with
  | .ok out => some out.ObservationsTimestampNanoseconds
  | .error _ => none

/-- The number of channel definitions of an Outcome result. -/
def resultDefsLength (r : Except OutcomeError Outcome) : Option Nat :=
  match r with
  | .ok out => some out.ChannelDefinitions.length
  | .error _ => none

/-- The canonical form of an Outcome result, `none` on error; two ok results
serialize to the same bytes exactly when these agree. -/
def resultCanon (r : Except OutcomeError Outcome) : Option Outcome :=
  match r with
  | .ok out => some (canonOutcome out)
  | .error _ => none

/-- Whether a channel is reportable in an Outcome result. -/
def resultIsReportable (knownChainSelector : Nat → Bool)
    (r : Except OutcomeError Outcome) (channelID : Nat) : Bool :=
  match r with
  | .ok out => Outcome.IsReportable knownChainSelector out channelID
  | .error _ => false

/-- Following the spec sentence for claim C5 (on a failed retirement
verification, skip this observations retirement field only; the other
fields are still counted): the variant of `processObservation` the spec
describes.  Declared only to compare the spec description against the
source-derived `processObservation`, whose failure branch drops the whole
observation. -/
def processObservationRetirementFieldOnly (p : LLOPlugin) (acc : OutcomeAccum)
    (observation : Observation) : Option OutcomeAccum :=
  let retirementStep : Option (Option RetirementReport × Bool) :=
    if observation.AttestedPredecessorRetirement ≠ [] ∧
        acc.validPredecessorRetirementReport = none then
      match p.PredecessorConfigDigest with
      | none => none
      | some pcd =>
        match p.CheckAttestedRetirementReport pcd
            observation.AttestedPredecessorRetirement with
        | none => some (acc.validPredecessorRetirementReport, false)
        | some retirementReport => some (some retirementReport, false)
    else some (acc.validPredecessorRetirementReport, false)
  match retirementStep with
  | none => none
  | some (_, true) => some acc
  | some (newReport, false) =>
    let acc1 := { acc with validPredecessorRetirementReport := newReport }
    let acc2 :=
      if observation.ShouldRetire then
        { acc1 with shouldRetireVotes := acc1.shouldRetireVotes + 1 }
      else acc1
    let acc3 := { acc2 with
      timestampsNanoseconds :=
        acc2.timestampsNanoseconds ++ [observation.UnixTimestampNanoseconds] }
    let acc4 := { acc3 with
      removeChannelVotesByID :=
        observation.RemoveChannelIDs.foldl
          (fun m channelID => bumpA channelID m) acc3.removeChannelVotesByID }
    let acc5 :=
      observation.AddChannelDefinitions.foldl
        (fun a cidcd =>
          let defWithID : ChannelDefinitionWithID := ⟨cidcd.2, cidcd.1⟩
          let channelHash := MakeChannelHash defWithID
          { a with
            addChannelVotesByHash := bumpA channelHash a.addChannelVotesByHash
            addChannelDefinitionsByHash :=
              insertA channelHash defWithID a.addChannelDefinitionsByHash })
        acc4
    let acc6 :=
      observation.StreamValues.foldl
        (fun a sv =>
          if sv.2.Valid then
            { a with streamObservations := pushA sv.1 sv.2.Val a.streamObservations }
          else a)
        acc5
    some acc6

/-- The observation loop using `processObservationRetirementFieldOnly`. -/
def accumulateRetirementFieldOnlyFrom (p : LLOPlugin) (acc : OutcomeAccum) :
    List (Option Observation) → Option OutcomeAccum
  | [] => some acc
  | none :: rest => accumulateRetirementFieldOnlyFrom p acc rest
  | some observation :: rest =>
    match processObservationRetirementFieldOnly p acc observation with
    | none => none
    | some acc2 => accumulateRetirementFieldOnlyFrom p acc2 rest

/-- Outcome as the spec describes it for claim C5: identical to
`LLOPlugin.Outcome` except that a failed retirement verification only skips
the retirement field of the offending observation. -/
def OutcomeRetirementFieldOnly (p : LLOPlugin)
    (knownChainSelector : Nat → Bool)
    (addOrder : List (List Nat × ChannelDefinitionWithID) →
      List (List Nat × ChannelDefinitionWithID))
    (seqNr : Nat) (previousOutcome : Option Outcome)
    (aos : List (Option Observation)) : Except OutcomeError Outcome :=
  if aos.length < 2 * p.F + 1 then .error .tooFewObservations
  else if seqNr ≤ 1 then
    .ok { LifeCycleStage :=
            if p.PredecessorConfigDigest = none then LifeCycleStageProduction
            else LifeCycleStageStaging
          ObservationsTimestampNanoseconds := 0
          ChannelDefinitions := []
          ValidAfterSeconds := []
          StreamMedians := [] }
  else
    match previousOutcome with
    | none => .error .invalidPreviousOutcome
    | some prev =>
      match accumulateRetirementFieldOnlyFrom p initialOutcomeAccum aos with
      | none => .error .panicNilPredecessorConfigDigest
      | some acc => buildOutcome p knownChainSelector addOrder prev acc

/-- A chain-selector table accepting every selector, used by the concrete
evaluations. -/
def ksAll : Nat → Bool := fun _ => true

/-- Concrete plugin for the C1/C2 evaluations: no predecessor, F = 0. -/
def pC12 : LLOPlugin :=
  { PredecessorConfigDigest := none
    F := 0
    CheckAttestedRetirementReport := fun _ _ => none }

/-- Concrete previous outcome for C1/C2: channel 1 is reportable
(definition present, validAfter 50 < 100 seconds), channel 2 has a
validAfterSeconds entry but no definition, hence is not reportable. -/
def prevC12 : Outcome :=
  { LifeCycleStage := "production"
    ObservationsTimestampNanoseconds := 100000000000
    ChannelDefinitions := [(1, { ReportFormat := "json", ChainSelector := 3, StreamIDs := [] })]
    ValidAfterSeconds := [(1, 50), (2, 60)]
    StreamMedians := [] }

/-- Concrete observation for C1/C2: carries only a timestamp of 200 s. -/
def obsC12 : Observation :=
  { AttestedPredecessorRetirement := []
    ShouldRetire := false
    UnixTimestampNanoseconds := 200000000000
    RemoveChannelIDs := []
    AddChannelDefinitions := []
    StreamValues := [] }

/-- C1: the code does the opposite of the claim.  Channel 1 is reportable
under the previous outcome, yet its new validAfterSeconds entry is the old
value 50 rather than the previous observations timestamp 100; channel 2 is
not reportable, yet its entry is advanced to 100 rather than kept at 60.
This matches the source condition at src/llo/plugin.go line 715, whose
branches are swapped relative to the claim and to its own inline
comments. -/
theorem c1_valid_after_update_is_inverted :
    Outcome.IsReportable ksAll prevC12 1 = true ∧
    Outcome.IsReportable ksAll prevC12 2 = false ∧
    Outcome.ObservationsTimestampSeconds prevC12 = some 100 ∧
    lookupA 1 prevC12.ValidAfterSeconds = some 50 ∧
    lookupA 2 prevC12.ValidAfterSeconds = some 60 ∧
    resultValidAfter (LLOPlugin.Outcome pC12 ksAll id 2 (some prevC12) [some obsC12]) 1
      = some 50 ∧
    resultValidAfter (LLOPlugin.Outcome pC12 ksAll id 2 (some prevC12) [some obsC12]) 2
      = some 100 := by
  decide

/-- C2: validity-window monotonicity fails on the code.  Channel 1 is
reportable in the previous outcome and in the produced outcome, but its new
validAfterSeconds entry is 50, strictly below the previous outcome
observations timestamp of 100 seconds, so the two report windows
overlap. -/
theorem c2_validity_window_monotonicity_fails :
    Outcome.IsReportable ksAll prevC12 1 = true ∧
    resultIsReportable ksAll
      (LLOPlugin.Outcome pC12 ksAll id 2 (some prevC12) [some obsC12]) 1 = true ∧
    Outcome.ObservationsTimestampSeconds prevC12 = some 100 ∧
    resultValidAfter (LLOPlugin.Outcome pC12 ksAll id 2 (some prevC12) [some obsC12]) 1
      = some 50 ∧
    (50 : Nat) < 100 := by
  decide

/-- Concrete plugin for C3: predecessor digest 7, F = 0; the retirement
cache accepts exactly the attested bytes [9], yielding the report with
ValidAfterSeconds mapping channel 5 to 1000. -/
def pC3 : LLOPlugin :=
  { PredecessorConfigDigest := some 7
    F := 0
    CheckAttestedRetirementReport := fun _ b =>
      if b = [9] then some ⟨some [(5, 1000)]⟩ else none }

/-- Concrete previous outcome for C3: staging with empty state. -/
def prevC3 : Outcome :=
  { LifeCycleStage := "staging"
    ObservationsTimestampNanoseconds := 0
    ChannelDefinitions := []
    ValidAfterSeconds := []
    StreamMedians := [] }

/-- Concrete observation for C3: carries the valid attested retirement [9]
and a remove vote for channel 5. -/
def obsC3 : Observation :=
  { AttestedPredecessorRetirement := [9]
    ShouldRetire := false
    UnixTimestampNanoseconds := 0
    RemoveChannelIDs := [5]
    AddChannelDefinitions := []
    StreamValues := [] }

/-- C3 counterexample: a staging-to-production promotion happens (the
produced lifecycle stage is production and the accepted retirement report
maps channel 5 to 1000), yet the produced outcome has no validAfterSeconds
entry for channel 5 at all: the remove-channel vote of the same round
deleted it (src/llo/plugin.go lines 747-749), so the mapping is not taken
over verbatim. -/
theorem c3_handover_entry_deleted_by_remove_vote :
    pC3.CheckAttestedRetirementReport 7 [9] = some ⟨some [(5, 1000)]⟩ ∧
    resultStage (LLOPlugin.Outcome pC3 ksAll id 2 (some prevC3) [some obsC3])
      = some LifeCycleStageProduction ∧
    resultValidAfter (LLOPlugin.Outcome pC3 ksAll id 2 (some prevC3) [some obsC3]) 5
      = none := by
  decide

/-- Concrete plugin for C4: no predecessor, F = 0. -/
def pC4 : LLOPlugin :=
  { PredecessorConfigDigest := none
    F := 0
    CheckAttestedRetirementReport := fun _ _ => none }

/-- Concrete previous outcome for C4: production with empty state. -/
def prevC4 : Outcome :=
  { LifeCycleStage := "production"
    ObservationsTimestampNanoseconds := 0
    ChannelDefinitions := []
    ValidAfterSeconds := []
    StreamMedians := [] }

/-- First definition proposed for channel 1 in the C4 counterexample. -/
def defC4a : ChannelDefinition := { ReportFormat := "evm", ChainSelector := 1, StreamIDs := [1] }

/-- Second, different definition proposed for channel 1 in the C4
counterexample; it has a different channel hash. -/
def defC4b : ChannelDefinition := { ReportFormat := "evm", ChainSelector := 1, StreamIDs := [2] }

/-- C4 observation voting to add channel 1 with definition defC4a. -/
def obsC4a : Observation :=
  { AttestedPredecessorRetirement := []
    ShouldRetire := false
    UnixTimestampNanoseconds := 0
    RemoveChannelIDs := []
    AddChannelDefinitions := [(1, defC4a)]
    StreamValues := [] }

/-- C4 observation voting to add channel 1 with definition defC4b. -/
def obsC4b : Observation :=
  { obsC4a with AddChannelDefinitions := [(1, defC4b)] }

/-- C4: Outcome is not deterministic and does not apply channel additions in
sorted hash order.  With identical previous outcome, identical observation
list and identical F, ranging over `addChannelDefinitionsByHash` in two
different (both legitimate) Go map iteration orders produces outcomes whose
canonical serializations differ: both proposed definitions for channel 1
have more than F votes, and whichever the loop reaches first wins the
conflict check at src/llo/plugin.go line 683. -/
theorem c4_outcome_depends_on_map_iteration_order :
    resultCanon (LLOPlugin.Outcome pC4 ksAll id 2 (some prevC4)
        [some obsC4a, some obsC4b]) ≠
      resultCanon (LLOPlugin.Outcome pC4 ksAll List.reverse 2 (some prevC4)
        [some obsC4a, some obsC4b]) := by
  decide

/-- Concrete plugin for the C5 counterexample: predecessor digest 7, F = 0,
and a retirement cache that rejects every attested report. -/
def pC5 : LLOPlugin :=
  { PredecessorConfigDigest := some 7
    F := 0
    CheckAttestedRetirementReport := fun _ _ => none }

/-- Concrete previous outcome for C5: production with empty state. -/
def prevC5 : Outcome := prevC4

/-- C5 observation with an attested retirement that fails verification and
the smallest timestamp of the round. -/
def obsC5bad : Observation :=
  { AttestedPredecessorRetirement := [9]
    ShouldRetire := false
    UnixTimestampNanoseconds := 100
    RemoveChannelIDs := []
    AddChannelDefinitions := []
    StreamValues := [] }

/-- Well-formed C5 observation with timestamp 200. -/
def obsC5b : Observation :=
  { obsC5bad with AttestedPredecessorRetirement := [], UnixTimestampNanoseconds := 200 }

/-- Well-formed C5 observation with timestamp 300. -/
def obsC5c : Observation :=
  { obsC5bad with AttestedPredecessorRetirement := [], UnixTimestampNanoseconds := 300 }

/-- C5 counterexample: with timestamps [100, 200, 300] and the first
observation carrying an invalid attested retirement, the code produces the
median of [200, 300] only, namely 300: the offending observation is dropped
entirely (`continue` at src/llo/plugin.go line 596), while the behaviour
the claim describes (skip the retirement field only, count the timestamp)
would give the median 200, as the spec-modelled variant shows. -/
theorem c5_whole_observation_dropped_cex :
    resultTimestampNs (LLOPlugin.Outcome pC5 ksAll id 2 (some prevC5)
        [some obsC5bad, some obsC5b, some obsC5c]) = some 300 ∧
    resultTimestampNs (OutcomeRetirementFieldOnly pC5 ksAll id 2 (some prevC5)
        [some obsC5bad, some obsC5b, some obsC5c]) = some 200 := by
  decide

/-- Concrete plugin for C6: no predecessor, F = 0. -/
def pC6 : LLOPlugin := pC4

/-- Concrete previous outcome for C6: production with exactly 500 channel
definitions (ids 0..499) and no other state. -/
def prevC6 : Outcome :=
  { LifeCycleStage := "production"
    ObservationsTimestampNanoseconds := 0
    ChannelDefinitions := (List.range 500).map
      (fun i => (i, { ReportFormat := "", ChainSelector := 0, StreamIDs := [] }))
    ValidAfterSeconds := []
    StreamMedians := [] }

/-- C6 observation voting (with more than F = 0 votes) to add channel 600. -/
def obsC6 : Observation :=
  { AttestedPredecessorRetirement := []
    ShouldRetire := false
    UnixTimestampNanoseconds := 0
    RemoveChannelIDs := []
    AddChannelDefinitions := [(600, { ReportFormat := "", ChainSelector := 0, StreamIDs := [] })]
    StreamValues := [] }

set_option maxRecDepth 200000 in
/-- C6 counterexample: starting from 500 channel definitions, one addition
vote still passes the strict `len > 500` check of src/llo/plugin.go line
690, so the produced outcome has 501 channel definitions, exceeding the
claimed bound of 500. -/
theorem c6_channel_definitions_reach_501 :
    prevC6.ChannelDefinitions.length = 500 ∧
    resultDefsLength (LLOPlugin.Outcome pC6 ksAll id 2 (some prevC6) [some obsC6])
      = some 501 := by
  decide

/-- C7 counterexample: with no previous channel definitions, an empty
expected set and previous validAfterSeconds keys {1,...,6} iterated in the
order [6,5,4,3,2,1] (a legitimate Go map iteration order), the remove set
is {6,5,4,3,2}: truncation kept the ids reached first, not the five
smallest, so id 1 is missing even though the claimed canonical ascending
truncation would keep it. -/
theorem c7_truncation_follows_iteration_order :
    buildRemoveChannelIDs [] [6, 5, 4, 3, 2, 1] [] = [6, 5, 4, 3, 2] ∧
    ¬ (1 ∈ buildRemoveChannelIDs [] [6, 5, 4, 3, 2, 1] []) := by
  decide

theorem lookupA_insertA_self {α β : Type} [DecidableEq α] (k : α) (v : β)
    (l : List (α × β)) : lookupA k (insertA k v l) = some v := by
  induction l with
  | nil => simp [insertA, lookupA]
  | cons kv rest ih =>
    by_cases h : kv.1 = k
    · simp [insertA, h, lookupA]
    · simp [insertA, h, lookupA, ih]

theorem lookupA_insertA_ne {α β : Type} [DecidableEq α] {k k2 : α} (v : β)
    (l : List (α × β)) (h : k2 ≠ k) : lookupA k (insertA k2 v l) = lookupA k l := by
  induction l with
  | nil => simp [insertA, lookupA, h]
  | cons kv rest ih =>
    by_cases h2 : kv.1 = k2
    · simp [insertA, h2, lookupA, h]
    · simp [insertA, h2, lookupA, ih]

theorem lookupA_eraseA_ne {α β : Type} [DecidableEq α] {k k2 : α}
    (l : List (α × β)) (h : k2 ≠ k) : lookupA k (eraseA k2 l) = lookupA k l := by
  induction l with
  | nil => simp [eraseA]
  | cons kv rest ih =>
    by_cases h2 : kv.1 = k2
    · have h3 : ¬ kv.1 = k := by rw [h2]; exact h
      simp [eraseA, h2, lookupA, h3, h, ih]
    · simp [eraseA, h2, lookupA, ih]

theorem lookupA_eq_none_of_not_mem {α β : Type} [DecidableEq α] {k : α}
    {l : List (α × β)} (h : ¬ k ∈ l.map Prod.fst) : lookupA k l = none := by
  induction l with
  | nil => rfl
  | cons kv rest ih =>
    simp only [List.map, List.mem_cons] at h
    push_neg at h
    have h1 : ¬ kv.1 = k := fun hk => h.1 hk.symm
    simp [lookupA, h1, ih h.2]

theorem length_insertA {α β : Type} [DecidableEq α] (k : α) (v : β)
    (l : List (α × β)) : (insertA k v l).length ≤ l.length + 1 := by
  induction l with
  | nil => simp [insertA]
  | cons kv rest ih =>
    by_cases h : kv.1 = k
    · simp [insertA, h]
    · simp only [insertA, h, if_false, List.length_cons]
      omega

theorem length_insertA_of_lookup_none {α β : Type} [DecidableEq α] {k : α} (v : β)
    {l : List (α × β)} (h : lookupA k l = none) :
    (insertA k v l).length = l.length + 1 := by
  induction l with
  | nil => simp [insertA]
  | cons kv rest ih =>
    by_cases h2 : kv.1 = k
    · simp [lookupA, h2] at h
    · simp only [lookupA, h2, if_false] at h
      simp [insertA, h2, ih h]

theorem length_eraseA_le {α β : Type} [DecidableEq α] (k : α)
    (l : List (α × β)) : (eraseA k l).length ≤ l.length := by
  induction l with
  | nil => simp [eraseA]
  | cons kv rest ih =>
    by_cases h : kv.1 = k
    · simp only [eraseA, h, if_true, List.length_cons]
      omega
    · simp only [eraseA, h, if_false, List.length_cons]
      omega

/-- C9: IsReportable returns OK exactly when: the stage is not retired, the
observations timestamp fits in u32 seconds, the channel definition exists,
its chain selector is known, every listed stream id has a present non-nil
median, and the validAfterSeconds entry exists and is strictly below the
observations timestamp in seconds. -/
theorem c9_is_reportable_iff (knownChainSelector : Nat → Bool) (out : Outcome)
    (channelID : Nat) :
    Outcome.IsReportable knownChainSelector out channelID = true ↔
      (out.LifeCycleStage ≠ LifeCycleStageRetired ∧
       ∃ observationsTimestampSeconds,
         Outcome.ObservationsTimestampSeconds out = some observationsTimestampSeconds ∧
         ∃ channelDefinition,
           lookupA channelID out.ChannelDefinitions = some channelDefinition ∧
           knownChainSelector channelDefinition.ChainSelector = true ∧
           (∀ streamID ∈ channelDefinition.StreamIDs,
             ∃ v, (lookupA streamID out.StreamMedians).getD none = some v) ∧
           ∃ validAfterSeconds,
             lookupA channelID out.ValidAfterSeconds = some validAfterSeconds ∧
             validAfterSeconds < observationsTimestampSeconds) := by
  constructor
  · intro h
    unfold Outcome.IsReportable at h
    split at h
    · simp at h
    next hret =>
    split at h
    · simp at h
    next ts hts =>
    split at h
    · simp at h
    next cd hcd =>
    split at h
    · simp at h
    next hsel =>
    split at h
    · simp at h
    next hany =>
    split at h
    · simp at h
    next vas hvas =>
    split at h
    · simp at h
    next hge =>
    refine ⟨hret, ts, hts, cd, hcd, by simpa using hsel, ?_, vas, hvas, by omega⟩
    intro sid hsid
    rw [List.any_eq_true] at hany
    push_neg at hany
    have h4 := hany sid hsid
    simp only [decide_eq_true_eq] at h4
    match hv : (lookupA sid out.StreamMedians).getD none with
    | none => exact absurd (by simp [hv]) h4
    | some v => exact ⟨v, rfl⟩
  · rintro ⟨hret, ts, hts, cd, hcd, hsel, hmed, vas, hvas, hlt⟩
    have hany : (cd.StreamIDs.any
        (fun streamID => ((lookupA streamID out.StreamMedians).getD none) = none)) = false := by
      rw [List.any_eq_false]
      intro sid hsid
      obtain ⟨v, hv⟩ := hmed sid hsid
      simp [hv]
    simp only [Outcome.IsReportable, if_neg hret, hts, hcd, hvas]
    rw [if_neg (by simp [hsel]), if_neg (by simp [hany]), if_neg (by omega)]

theorem buildOutcome_ok_inv (p : LLOPlugin) (knownChainSelector : Nat → Bool)
    (addOrder : List (List Nat × ChannelDefinitionWithID) →
      List (List Nat × ChannelDefinitionWithID))
    (prev : Outcome) (acc : OutcomeAccum) (out : Outcome)
    (h : buildOutcome p knownChainSelector addOrder prev acc = .ok out) :
    ∃ vas0 observationsTimestampSeconds streamMedians,
      outcomeVasStart knownChainSelector prev (outcomeStageAndOverride p prev acc).2
        (outcomeChannelDefinitions p addOrder prev
          (outcomeStageAndOverride p prev acc).1 acc) = .ok vas0 ∧
      timestampSecondsOfNanos (outcomeTimestampNs acc) = some observationsTimestampSeconds ∧
      computeStreamMedians p.F acc.streamObservations = some streamMedians ∧
      out = { LifeCycleStage := (outcomeStageAndOverride p prev acc).1
              ObservationsTimestampNanoseconds := outcomeTimestampNs acc
              ChannelDefinitions := outcomeChannelDefinitions p addOrder prev
                (outcomeStageAndOverride p prev acc).1 acc
              ValidAfterSeconds :=
                (outcomeRemovedChannelIDs p (outcomeStageAndOverride p prev acc).1 acc).foldl
                  (fun vas channelID => eraseA channelID vas)
                  ((outcomeChannelDefinitions p addOrder prev
                      (outcomeStageAndOverride p prev acc).1 acc).foldl
                    (fillNewChannelStep observationsTimestampSeconds) vas0)
              StreamMedians := streamMedians } := by
  unfold buildOutcome at h
  split at h
  · exact Except.noConfusion h
  · split at h
    · exact Except.noConfusion h
    next vas0 hvas0 =>
    split at h
    · exact Except.noConfusion h
    next ts hts =>
    split at h
    · exact Except.noConfusion h
    next medians hmed =>
    refine ⟨vas0, ts, medians, hvas0, hts, hmed, ?_⟩
    cases h
    rfl

theorem addChannelStep_length_le (F : Nat) (votes : List (List Nat × Nat))
    (m : List (Nat × ChannelDefinition)) (hdw : List Nat × ChannelDefinitionWithID)
    (h : m.length ≤ 501) : (addChannelStep F votes m hdw).length ≤ 501 := by
  unfold addChannelStep
  split
  · exact h
  split
  · exact h
  split
  · exact h
  next h2 h3 =>
  rw [length_insertA_of_lookup_none hdw.2.channelDefinition
    (by cases hl : lookupA hdw.2.ChannelID m with
        | none => rfl
        | some v => rw [hl] at h2; simp at h2)]
  have : m.length ≤ MAX_OUTCOME_CHANNEL_DEFINITIONS_LENGTH := by omega
  unfold MAX_OUTCOME_CHANNEL_DEFINITIONS_LENGTH at this
  omega

theorem foldl_addChannelStep_length_le (F : Nat) (votes : List (List Nat × Nat))
    (L : List (List Nat × ChannelDefinitionWithID)) (m : List (Nat × ChannelDefinition))
    (h : m.length ≤ 501) : (L.foldl (addChannelStep F votes) m).length ≤ 501 := by
  induction L generalizing m with
  | nil => exact h
  | cons hd tl ih => exact ih _ (addChannelStep_length_le F votes m hd h)

theorem foldl_eraseA_length_le (L : List Nat) (m : List (Nat × ChannelDefinition)) :
    (L.foldl (fun m channelID => eraseA channelID m) m).length ≤ m.length := by
  induction L generalizing m with
  | nil => exact Nat.le_refl _
  | cons hd tl ih =>
    exact Nat.le_trans (ih (eraseA hd m)) (length_eraseA_le hd m)

theorem outcomeChannelDefinitions_length_le (p : LLOPlugin)
    (addOrder : List (List Nat × ChannelDefinitionWithID) →
      List (List Nat × ChannelDefinitionWithID))
    (prev : Outcome) (stage : String) (acc : OutcomeAccum)
    (h : prev.ChannelDefinitions.length ≤ 501) :
    (outcomeChannelDefinitions p addOrder prev stage acc).length ≤ 501 := by
  unfold outcomeChannelDefinitions
  exact foldl_addChannelStep_length_le _ _ _ _
    (Nat.le_trans (foldl_eraseA_length_le _ _) h)

/-- C6 (amended): the channel-definition set can reach 501 entries (the
strict `len > 500` check admits one past the documented maximum), but never
more: if the previous outcome has at most 501 channel definitions, every
outcome Outcome produces has at most 501. -/
theorem c6_channel_definitions_at_most_501 (p : LLOPlugin)
    (knownChainSelector : Nat → Bool)
    (addOrder : List (List Nat × ChannelDefinitionWithID) →
      List (List Nat × ChannelDefinitionWithID))
    (seqNr : Nat) (prev : Outcome) (aos : List (Option Observation)) (out : Outcome)
    (hprev : prev.ChannelDefinitions.length ≤ 501)
    (hok : LLOPlugin.Outcome p knownChainSelector addOrder seqNr (some prev) aos = .ok out) :
    out.ChannelDefinitions.length ≤ 501 := by
  unfold LLOPlugin.Outcome at hok
  split at hok
  · exact Except.noConfusion hok
  split at hok
  · cases hok
    simp
  · split at hok
    · exact Except.noConfusion hok
    next prev2 hprev2 =>
    injection hprev2 with hp
    subst hp
    split at hok
    · exact Except.noConfusion hok
    next acc hacc =>
    obtain ⟨vas0, ts, medians, _, _, _, hout⟩ :=
      buildOutcome_ok_inv p knownChainSelector addOrder prev acc out hok
    rw [hout]
    exact outcomeChannelDefinitions_length_le p addOrder prev _ acc hprev

/-- The outcome Outcome produces for the C6 witness input. -/
def outC6w : Outcome :=
  { LifeCycleStage := "production"
    ObservationsTimestampNanoseconds := 0
    ChannelDefinitions := [(600, { ReportFormat := "", ChainSelector := 0, StreamIDs := [] })]
    ValidAfterSeconds := [(600, 0)]
    StreamMedians := [] }

theorem c6_channel_definitions_at_most_501_witness :
    prevC4.ChannelDefinitions.length ≤ 501 ∧ outC6w.ChannelDefinitions.length ≤ 501 :=
  ⟨by decide,
   c6_channel_definitions_at_most_501 pC6 ksAll id 2 prevC4 [some obsC6] outC6w
     (by decide) (by rfl)⟩

theorem outcome_ok_inv (p : LLOPlugin) (knownChainSelector : Nat → Bool)
    (addOrder : List (List Nat × ChannelDefinitionWithID) →
      List (List Nat × ChannelDefinitionWithID))
    (seqNr : Nat) (prev : Outcome) (aos : List (Option Observation)) (out : Outcome)
    (hseq : ¬ seqNr ≤ 1)
    (hok : LLOPlugin.Outcome p knownChainSelector addOrder seqNr (some prev) aos
      = .ok out) :
    ∃ acc, accumulateFrom p initialOutcomeAccum aos = some acc ∧
      buildOutcome p knownChainSelector addOrder prev acc = .ok out := by
  unfold LLOPlugin.Outcome at hok
  split at hok
  · exact Except.noConfusion hok
  split at hok
  · exact Except.noConfusion hok
  next prev2 hprev2 =>
  injection hprev2 with hp
  subst hp
  split at hok
  · exact Except.noConfusion hok
  next acc hacc =>
  exact ⟨acc, hacc, hok⟩

theorem lookupA_foldl_fill_preserved (observationsTimestampSeconds : Nat)
    (L : List (Nat × ChannelDefinition)) (vas : List (Nat × Nat)) (c v : Nat)
    (h : lookupA c vas = some v) :
    lookupA c (L.foldl (fillNewChannelStep observationsTimestampSeconds) vas)
      = some v := by
  induction L generalizing vas with
  | nil => exact h
  | cons hd tl ih =>
    rw [List.foldl_cons]
    apply ih
    unfold fillNewChannelStep
    split
    · exact h
    next hnone =>
    have hc : ¬ hd.1 = c := by
      intro hc
      rw [hc, h] at hnone
      simp at hnone
    rw [lookupA_insertA_ne _ _ hc]
    exact h

theorem lookupA_foldl_eraseA_not_mem (L : List Nat) (vas : List (Nat × Nat)) (c : Nat)
    (h : ¬ c ∈ L) :
    lookupA c (L.foldl (fun vas channelID => eraseA channelID vas) vas)
      = lookupA c vas := by
  induction L generalizing vas with
  | nil => rfl
  | cons hd tl ih =>
    simp only [List.mem_cons] at h
    push_neg at h
    rw [List.foldl_cons, ih _ h.2, lookupA_eraseA_ne _ (fun he => h.1 he.symm)]

theorem mem_outcomeRemovedChannelIDs (p : LLOPlugin) (stage : String)
    (acc : OutcomeAccum) (c : Nat) (h : c ∈ outcomeRemovedChannelIDs p stage acc) :
    ∃ n, (c, n) ∈ acc.removeChannelVotesByID ∧ p.F < n := by
  unfold outcomeRemovedChannelIDs at h
  split at h
  · simp at h
  · rw [List.mem_map] at h
    obtain ⟨kv, hkv, hfst⟩ := h
    rw [List.mem_filter] at hkv
    refine ⟨kv.2, ?_, by simpa using hkv.2⟩
    have : kv = (c, kv.2) := by
      cases kv
      simp at hfst
      simp [hfst]
    rw [← this]
    exact hkv.1

/-- C3 (amended): on a staging-to-production promotion with accepted
retirement report R carrying map m, every entry of m survives into the
produced outcome verbatim, unless more than F counted observations voted to
remove that channel in the very same round, in which case the entry is
deleted (src/llo/plugin.go lines 747-749). -/
theorem c3_handover_verbatim_unless_removed (p : LLOPlugin)
    (knownChainSelector : Nat → Bool)
    (addOrder : List (List Nat × ChannelDefinitionWithID) →
      List (List Nat × ChannelDefinitionWithID))
    (seqNr : Nat) (prev : Outcome) (aos : List (Option Observation))
    (acc : OutcomeAccum) (r : RetirementReport) (m : List (Nat × Nat))
    (c v : Nat) (out : Outcome)
    (hseq : ¬ seqNr ≤ 1)
    (hstage : prev.LifeCycleStage = LifeCycleStageStaging)
    (hacc : accumulateFrom p initialOutcomeAccum aos = some acc)
    (hrep : acc.validPredecessorRetirementReport = some r)
    (hm : r.ValidAfterSeconds = some m)
    (hc : lookupA c m = some v)
    (hnr : ∀ n, (c, n) ∈ acc.removeChannelVotesByID → n ≤ p.F)
    (hok : LLOPlugin.Outcome p knownChainSelector addOrder seqNr (some prev) aos
      = .ok out) :
    lookupA c out.ValidAfterSeconds = some v := by
  obtain ⟨acc2, hacc2, hbuild⟩ :=
    outcome_ok_inv p knownChainSelector addOrder seqNr prev aos out hseq hok
  rw [hacc] at hacc2
  injection hacc2 with ha
  subst ha
  obtain ⟨vas0, ts, medians, hvas0, hts, hmed, hout⟩ :=
    buildOutcome_ok_inv p knownChainSelector addOrder prev acc out hbuild
  have hov : (outcomeStageAndOverride p prev acc).2 = some m := by
    unfold outcomeStageAndOverride
    rw [hrep]
    simp only [hstage, if_true, hm]
    split
    · rfl
    · rfl
  rw [hov] at hvas0
  have hv0 : vas0 = m := by
    unfold outcomeVasStart at hvas0
    injection hvas0 with h2
    exact h2.symm
  subst hv0
  have hnotmem : ¬ c ∈ outcomeRemovedChannelIDs p
      (outcomeStageAndOverride p prev acc).1 acc := by
    intro hmem
    obtain ⟨n, hn, hgt⟩ := mem_outcomeRemovedChannelIDs p _ acc c hmem
    exact absurd hgt (Nat.not_lt.mpr (hnr n hn))
  rw [hout]
  exact (lookupA_foldl_eraseA_not_mem _ _ _ hnotmem).trans
    (lookupA_foldl_fill_preserved _ _ _ _ _ hc)

/-- C3 witness observation: carries the valid attested retirement and no
remove votes. -/
def obsC3w : Observation := { obsC3 with RemoveChannelIDs := [] }

/-- The accumulators produced for the C3 witness input. -/
def accC3w : OutcomeAccum :=
  { initialOutcomeAccum with
    validPredecessorRetirementReport := some ⟨some [(5, 1000)]⟩
    timestampsNanoseconds := [0] }

/-- The outcome produced for the C3 witness input. -/
def outC3w : Outcome :=
  { LifeCycleStage := "production"
    ObservationsTimestampNanoseconds := 0
    ChannelDefinitions := []
    ValidAfterSeconds := [(5, 1000)]
    StreamMedians := [] }

theorem c3_handover_verbatim_unless_removed_witness :
    (¬ (2 : Nat) ≤ 1) ∧ lookupA 5 outC3w.ValidAfterSeconds = some 1000 :=
  ⟨by decide,
   c3_handover_verbatim_unless_removed pC3 ksAll id 2 prevC3 [some obsC3w] accC3w
     ⟨some [(5, 1000)]⟩ [(5, 1000)] 5 1000 outC3w (by decide) (by decide) (by rfl)
     (by rfl) (by rfl) (by rfl) (fun n hn => absurd hn (List.not_mem_nil _)) (by rfl)⟩

theorem accumulateFrom_append (p : LLOPlugin) (acc : OutcomeAccum)
    (xs ys : List (Option Observation)) :
    accumulateFrom p acc (xs ++ ys) =
      match accumulateFrom p acc xs with
      | none => none
      | some acc2 => accumulateFrom p acc2 ys := by
  induction xs generalizing acc with
  | nil => rfl
  | cons hd tl ih =>
    cases hd with
    | none =>
      simp only [List.cons_append, accumulateFrom]
      exact ih acc
    | some obs =>
      simp only [List.cons_append, accumulateFrom]
      cases processObservation p acc obs with
      | none => rfl
      | some acc2 => exact ih acc2

theorem processObservation_invalid_retirement_noop (p : LLOPlugin)
    (acc : OutcomeAccum) (obs : Observation) (d : Nat)
    (hret : obs.AttestedPredecessorRetirement ≠ [])
    (hnone : acc.validPredecessorRetirementReport = none)
    (hpcd : p.PredecessorConfigDigest = some d)
    (hfail : p.CheckAttestedRetirementReport d obs.AttestedPredecessorRetirement
      = none) : processObservation p acc obs = some acc := by
  simp only [processObservation, hpcd, hfail]
  rw [if_pos (And.intro hret hnone)]

/-- C5 (amended): when an observation carries a non-empty attested
retirement that fails verification (no valid retirement report was accepted
from an earlier observation, the predecessor digest is configured, and the
cache check errors), the code drops that observation entirely: the round
outcome is exactly the outcome computed without the observation, as long as
the quorum length check passes for the shorter list.  None of its fields,
not even the non-retirement ones, are counted. -/
theorem c5_invalid_retirement_drops_whole_observation (p : LLOPlugin)
    (knownChainSelector : Nat → Bool)
    (addOrder : List (List Nat × ChannelDefinitionWithID) →
      List (List Nat × ChannelDefinitionWithID))
    (seqNr : Nat) (prevO : Option Outcome) (aos1 aos2 : List (Option Observation))
    (bad : Observation) (d : Nat)
    (hret : bad.AttestedPredecessorRetirement ≠ [])
    (hpcd : p.PredecessorConfigDigest = some d)
    (hfail : p.CheckAttestedRetirementReport d bad.AttestedPredecessorRetirement
      = none)
    (hnone : ∀ acc, accumulateFrom p initialOutcomeAccum aos1 = some acc →
      acc.validPredecessorRetirementReport = none)
    (hlen : 2 * p.F + 1 ≤ (aos1 ++ aos2).length) :
    LLOPlugin.Outcome p knownChainSelector addOrder seqNr prevO
        (aos1 ++ some bad :: aos2) =
      LLOPlugin.Outcome p knownChainSelector addOrder seqNr prevO (aos1 ++ aos2) := by
  have hlen2 : ¬ (aos1 ++ some bad :: aos2).length < 2 * p.F + 1 := by
    simp only [List.length_append, List.length_cons]
    simp only [List.length_append] at hlen
    omega
  have hlen1 : ¬ (aos1 ++ aos2).length < 2 * p.F + 1 := by
    simp only [List.length_append]
    simp only [List.length_append] at hlen
    omega
  have hacc : accumulateFrom p initialOutcomeAccum (aos1 ++ some bad :: aos2)
      = accumulateFrom p initialOutcomeAccum (aos1 ++ aos2) := by
    rw [accumulateFrom_append, accumulateFrom_append]
    cases h1 : accumulateFrom p initialOutcomeAccum aos1 with
    | none => rfl
    | some acc1 =>
      have hn := hnone acc1 h1
      simp only [accumulateFrom]
      rw [processObservation_invalid_retirement_noop p acc1 bad d hret hn hpcd hfail]
  unfold LLOPlugin.Outcome
  rw [if_neg hlen2, if_neg hlen1]
  by_cases hseq : seqNr ≤ 1
  · rw [if_pos hseq, if_pos hseq]
  · rw [if_neg hseq, if_neg hseq]
    cases prevO with
    | none => rfl
    | some prev => simp only [hacc]

theorem c5_invalid_retirement_drops_whole_observation_witness :
    obsC5bad.AttestedPredecessorRetirement ≠ [] ∧
    LLOPlugin.Outcome pC5 ksAll id 2 (some prevC5) ([] ++ some obsC5bad :: [some obsC5b]) =
      LLOPlugin.Outcome pC5 ksAll id 2 (some prevC5) ([] ++ [some obsC5b]) :=
  ⟨by decide,
   c5_invalid_retirement_drops_whole_observation pC5 ksAll id 2 (some prevC5) []
     [some obsC5b] obsC5bad 7 (by decide) (by rfl) (by rfl)
     (fun acc h => by
       injection h with h2
       rw [← h2]
       rfl)
     (by decide)⟩

/-- All collected stream values are non-nil pointers. -/
def streamObsAllSome (l : List (Nat × List (Option Int))) : Prop :=
  ∀ kv ∈ l, ∀ v ∈ kv.2, v.isSome = true

theorem validateObservation_props (pcd : Option Nat) (obs : Observation)
    (h : ValidateObservation pcd obs = true) :
    (pcd = none → obs.AttestedPredecessorRetirement = []) ∧
    (∀ sv ∈ obs.StreamValues, sv.2.Valid = true → sv.2.Val.isSome = true) := by
  unfold ValidateObservation at h
  split at h
  · simp at h
  next h1 =>
  split at h
  · simp at h
  split at h
  · simp at h
  split at h
  · simp at h
  split at h
  · simp at h
  next h5 =>
  constructor
  · intro hpcd
    by_contra hne
    exact h1 ⟨hpcd, hne⟩
  · intro sv hsv hvalid
    rw [List.any_eq_true] at h5
    push_neg at h5
    have h6 := h5 sv hsv
    have h7 : ¬ (sv.2.Valid = true ∧ sv.2.Val = none) := by
      intro hc
      exact h6 (by simp [hc.1, hc.2])
    cases hv : sv.2.Val with
    | none => exact absurd ⟨hvalid, hv⟩ h7
    | some v => rfl

theorem pushA_all_some (k : Nat) (v : Option Int) (l : List (Nat × List (Option Int)))
    (hv : v.isSome = true) (h : streamObsAllSome l) :
    streamObsAllSome (pushA k v l) := by
  induction l with
  | nil =>
    intro kv hkv w hw
    simp only [pushA, List.mem_singleton] at hkv
    subst hkv
    simp only [List.mem_singleton] at hw
    subst hw
    exact hv
  | cons hd tl ih =>
    intro kv hkv w hw
    simp only [pushA] at hkv
    split at hkv
    · rw [List.mem_cons] at hkv
      cases hkv with
      | inl he =>
        subst he
        simp only [List.mem_append, List.mem_singleton] at hw
        cases hw with
        | inl hw2 => exact h hd (List.mem_cons_self _ _) w hw2
        | inr hw2 => subst hw2; exact hv
      | inr he => exact h kv (List.mem_cons_of_mem _ he) w hw
    · rw [List.mem_cons] at hkv
      cases hkv with
      | inl he =>
        subst he
        exact h kv (List.mem_cons_self _ _) w hw
      | inr he =>
        exact ih (fun a ha => h a (List.mem_cons_of_mem _ ha)) kv he w hw

theorem foldl_streamValues_all_some (svs : List (Nat × ObsResult)) (a : OutcomeAccum)
    (hsv : ∀ sv ∈ svs, sv.2.Valid = true → sv.2.Val.isSome = true)
    (h : streamObsAllSome a.streamObservations) :
    streamObsAllSome ((svs.foldl
      (fun a sv =>
        if sv.2.Valid then
          { a with streamObservations := pushA sv.1 sv.2.Val a.streamObservations }
        else a) a).streamObservations) := by
  induction svs generalizing a with
  | nil => exact h
  | cons hd tl ih =>
    rw [List.foldl_cons]
    refine ih _ (fun sv hm => hsv sv (List.mem_cons_of_mem _ hm)) ?_
    split
    next hvalid =>
      exact pushA_all_some hd.1 hd.2.Val a.streamObservations
        (hsv hd (List.mem_cons_self _ _) hvalid) h
    next => exact h

theorem foldl_addDefs_streamObs (l : List (Nat × ChannelDefinition)) (a : OutcomeAccum) :
    ((l.foldl
      (fun a cidcd =>
        let defWithID : ChannelDefinitionWithID := ⟨cidcd.2, cidcd.1⟩
        let channelHash := MakeChannelHash defWithID
        { a with
          addChannelVotesByHash := bumpA channelHash a.addChannelVotesByHash
          addChannelDefinitionsByHash :=
            insertA channelHash defWithID a.addChannelDefinitionsByHash }) a)
      ).streamObservations = a.streamObservations := by
  induction l generalizing a with
  | nil => rfl
  | cons hd tl ih => rw [List.foldl_cons, ih]

theorem processObservation_no_panic (p : LLOPlugin) (acc : OutcomeAccum)
    (obs : Observation)
    (hval : ValidateObservation p.PredecessorConfigDigest obs = true)
    (hall : streamObsAllSome acc.streamObservations) :
    ∃ acc2, processObservation p acc obs = some acc2 ∧
      streamObsAllSome acc2.streamObservations := by
  obtain ⟨hpcd, hsv⟩ := validateObservation_props p.PredecessorConfigDigest obs hval
  unfold processObservation
  by_cases hcond : obs.AttestedPredecessorRetirement ≠ [] ∧
      acc.validPredecessorRetirementReport = none
  · rw [if_pos hcond]
    cases hp : p.PredecessorConfigDigest with
    | none => exact absurd (hpcd hp) hcond.1
    | some d =>
      dsimp only
      cases hc : p.CheckAttestedRetirementReport d obs.AttestedPredecessorRetirement with
      | none =>
        dsimp only
        exact ⟨acc, rfl, hall⟩
      | some r =>
        dsimp only
        refine ⟨_, rfl, ?_⟩
        apply foldl_streamValues_all_some obs.StreamValues _ hsv
        rw [foldl_addDefs_streamObs]
        dsimp only
        split
        · exact hall
        · exact hall
  · rw [if_neg hcond]
    dsimp only
    refine ⟨_, rfl, ?_⟩
    apply foldl_streamValues_all_some obs.StreamValues _ hsv
    rw [foldl_addDefs_streamObs]
    dsimp only
    split
    · exact hall
    · exact hall

theorem accumulateFrom_no_panic (p : LLOPlugin) (aos : List (Option Observation))
    (acc : OutcomeAccum)
    (hval : ∀ obs, some obs ∈ aos →
      ValidateObservation p.PredecessorConfigDigest obs = true)
    (hall : streamObsAllSome acc.streamObservations) :
    ∃ acc2, accumulateFrom p acc aos = some acc2 ∧
      streamObsAllSome acc2.streamObservations := by
  induction aos generalizing acc with
  | nil => exact ⟨acc, rfl, hall⟩
  | cons hd tl ih =>
    cases hd with
    | none =>
      exact ih acc (fun obs h => hval obs (List.mem_cons_of_mem _ h)) hall
    | some obs =>
      obtain ⟨acc2, hp, hall2⟩ := processObservation_no_panic p acc obs
        (hval obs (List.mem_cons_self _ _)) hall
      rw [accumulateFrom, hp]
      exact ih acc2 (fun o h => hval o (List.mem_cons_of_mem _ h)) hall2

theorem computeStreamMedians_no_panic (F : Nat) (l : List (Nat × List (Option Int)))
    (h : streamObsAllSome l) : ∃ ms, computeStreamMedians F l = some ms := by
  induction l with
  | nil => exact ⟨[], rfl⟩
  | cons hd tl ih =>
    obtain ⟨sid, obsl⟩ := hd
    have hhd : ¬ (2 ≤ obsl.length ∧ obsl.any (fun v => v = none) = true) := by
      rintro ⟨_, hany⟩
      rw [List.any_eq_true] at hany
      obtain ⟨v, hv, hvn⟩ := hany
      have h2 := h (sid, obsl) (List.mem_cons_self _ _) v hv
      simp only [decide_eq_true_eq] at hvn
      rw [hvn] at h2
      simp at h2
    obtain ⟨ms, hms⟩ := ih (fun kv hkv => h kv (List.mem_cons_of_mem _ hkv))
    unfold computeStreamMedians
    rw [if_neg hhd, hms]
    dsimp only
    split
    · exact ⟨ms, rfl⟩
    · exact ⟨_, rfl⟩

theorem outcomeVasStart_error (knownChainSelector : Nat → Bool) (prev : Outcome)
    (override : Option (List (Nat × Nat))) (defs : List (Nat × ChannelDefinition))
    (e : OutcomeError)
    (h : outcomeVasStart knownChainSelector prev override defs = .error e) :
    e = .previousTimestampOverflow := by
  unfold outcomeVasStart at h
  split at h
  · exact Except.noConfusion h
  split at h
  · injection h with h2
    exact h2.symm
  · exact Except.noConfusion h

/-- C10: Outcome never panics when every observation that decodes passes
ValidateObservation.  In particular, with no predecessor config digest every
decodable observation has an empty attested retirement, so the nil pointer
dereference at src/llo/plugin.go:592 is unreachable, and every valid stream
value is non-nil, so the sort at line 756 never compares a nil big.Int.
Every error the model can return in that case is an ordinary returned
error, not a panic. -/
theorem c10_outcome_no_panic (p : LLOPlugin) (knownChainSelector : Nat → Bool)
    (addOrder : List (List Nat × ChannelDefinitionWithID) →
      List (List Nat × ChannelDefinitionWithID))
    (seqNr : Nat) (prevO : Option Outcome) (aos : List (Option Observation))
    (e : OutcomeError)
    (hval : ∀ obs, some obs ∈ aos →
      ValidateObservation p.PredecessorConfigDigest obs = true)
    (he : LLOPlugin.Outcome p knownChainSelector addOrder seqNr prevO aos
      = .error e) : e.isPanic = false := by
  obtain ⟨acc2, hacc, hall2⟩ := accumulateFrom_no_panic p aos initialOutcomeAccum hval
    (fun kv hkv => absurd hkv (List.not_mem_nil _))
  unfold LLOPlugin.Outcome at he
  split at he
  · injection he with h2
    rw [← h2]
    rfl
  split at he
  · exact Except.noConfusion he
  split at he
  · injection he with h2
    rw [← h2]
    rfl
  next prev hprev =>
  split at he
  · next hacc0 =>
    rw [hacc] at hacc0
    exact Option.noConfusion hacc0
  next acc hacc3 =>
  rw [hacc] at hacc3
  injection hacc3 with h3
  subst h3
  unfold buildOutcome at he
  split at he
  · injection he with h2
    rw [← h2]
    rfl
  split at he
  · next e2 hvs =>
    injection he with h2
    rw [← h2, outcomeVasStart_error _ _ _ _ _ hvs]
    rfl
  split at he
  · injection he with h2
    rw [← h2]
    rfl
  split at he
  · next hmednone =>
    obtain ⟨ms, hms⟩ := computeStreamMedians_no_panic p.F acc2.streamObservations hall2
    rw [hms] at hmednone
    exact Option.noConfusion hmednone
  · exact Except.noConfusion he

theorem c10_outcome_no_panic_witness :
    (∀ obs, some obs ∈ ([none] : List (Option Observation)) →
      ValidateObservation pC4.PredecessorConfigDigest obs = true) ∧
    OutcomeError.noValidObservations.isPanic = false :=
  ⟨fun _ h => absurd h (by simp),
   c10_outcome_no_panic pC4 ksAll id 2 (some prevC4) [none] .noValidObservations
     (fun _ h => absurd h (by simp)) (by rfl)⟩

theorem mem_pushA_map_fst {α β : Type} [DecidableEq α] {x k : α} (v : β)
    (l : List (α × List β)) (h : x ∈ (pushA k v l).map Prod.fst) :
    x ∈ l.map Prod.fst ∨ x = k := by
  induction l with
  | nil =>
    simp only [pushA, List.map_cons, List.map_nil, List.mem_singleton] at h
    exact Or.inr h
  | cons hd tl ih =>
    by_cases he : hd.1 = k
    · simp only [pushA, he, if_true, List.map_cons, List.mem_cons] at h
      cases h with
      | inl h2 => exact Or.inl (by simp [he, h2])
      | inr h2 => exact Or.inl (List.mem_cons_of_mem _ h2)
    · simp only [pushA, he, if_false, List.map_cons, List.mem_cons] at h
      cases h with
      | inl h2 => exact Or.inl (by simp [h2])
      | inr h2 =>
        cases ih h2 with
        | inl h3 => exact Or.inl (List.mem_cons_of_mem _ h3)
        | inr h3 => exact Or.inr h3

theorem pushA_keys_nodup {α β : Type} [DecidableEq α] (k : α) (v : β)
    (l : List (α × List β)) (h : (l.map Prod.fst).Nodup) :
    ((pushA k v l).map Prod.fst).Nodup := by
  induction l with
  | nil => simp [pushA]
  | cons hd tl ih =>
    by_cases he : hd.1 = k
    · simpa [pushA, he] using h
    · simp only [List.map_cons, List.nodup_cons] at h
      simp only [pushA, he, if_false, List.map_cons, List.nodup_cons]
      refine ⟨?_, ih h.2⟩
      intro hmem
      cases mem_pushA_map_fst v tl hmem with
      | inl h2 => exact h.1 h2
      | inr h2 => exact he h2

theorem foldl_streamValues_keys_nodup (svs : List (Nat × ObsResult))
    (a : OutcomeAccum) (h : (a.streamObservations.map Prod.fst).Nodup) :
    (((svs.foldl
      (fun a sv =>
        if sv.2.Valid then
          { a with streamObservations := pushA sv.1 sv.2.Val a.streamObservations }
        else a) a)).streamObservations.map Prod.fst).Nodup := by
  induction svs generalizing a with
  | nil => exact h
  | cons hd tl ih =>
    rw [List.foldl_cons]
    apply ih
    split
    · exact pushA_keys_nodup hd.1 hd.2.Val a.streamObservations h
    · exact h

theorem processObservation_streamObs_keys_nodup (p : LLOPlugin) (acc acc2 : OutcomeAccum)
    (obs : Observation) (hp : processObservation p acc obs = some acc2)
    (h : (acc.streamObservations.map Prod.fst).Nodup) :
    (acc2.streamObservations.map Prod.fst).Nodup := by
  unfold processObservation at hp
  by_cases hcond : obs.AttestedPredecessorRetirement ≠ [] ∧
      acc.validPredecessorRetirementReport = none
  · rw [if_pos hcond] at hp
    cases hpcd : p.PredecessorConfigDigest with
    | none =>
      rw [hpcd] at hp
      exact Option.noConfusion hp
    | some d =>
      rw [hpcd] at hp
      dsimp only at hp
      cases hc : p.CheckAttestedRetirementReport d obs.AttestedPredecessorRetirement with
      | none =>
        rw [hc] at hp
        dsimp only at hp
        injection hp with h2
        rw [← h2]
        exact h
      | some r =>
        rw [hc] at hp
        dsimp only at hp
        injection hp with h2
        rw [← h2]
        apply foldl_streamValues_keys_nodup
        rw [foldl_addDefs_streamObs]
        dsimp only
        split
        · exact h
        · exact h
  · rw [if_neg hcond] at hp
    dsimp only at hp
    injection hp with h2
    rw [← h2]
    apply foldl_streamValues_keys_nodup
    rw [foldl_addDefs_streamObs]
    dsimp only
    split
    · exact h
    · exact h

theorem accumulateFrom_streamObs_keys_nodup (p : LLOPlugin)
    (aos : List (Option Observation)) (acc acc2 : OutcomeAccum)
    (hacc : accumulateFrom p acc aos = some acc2)
    (h : (acc.streamObservations.map Prod.fst).Nodup) :
    (acc2.streamObservations.map Prod.fst).Nodup := by
  induction aos generalizing acc with
  | nil =>
    injection hacc with h2
    rw [← h2]
    exact h
  | cons hd tl ih =>
    cases hd with
    | none => exact ih acc hacc h
    | some obs =>
      unfold accumulateFrom at hacc
      split at hacc
      · exact Option.noConfusion hacc
      next acc3 hp =>
      exact ih acc3 hacc (processObservation_streamObs_keys_nodup p acc acc3 obs hp h)

theorem computeStreamMedians_lookup (F : Nat) (l : List (Nat × List (Option Int)))
    (ms : List (Nat × Option Int)) (sid : Nat)
    (hnd : (l.map Prod.fst).Nodup) (h : computeStreamMedians F l = some ms) :
    lookupA sid ms =
      match lookupA sid l with
      | none => none
      | some vals =>
        if F < vals.length
        then some ((goSortStreamValues vals).getD (vals.length / 2) none)
        else none := by
  induction l generalizing ms with
  | nil =>
    injection h with h2
    rw [← h2]
    rfl
  | cons hd tl ih =>
    obtain ⟨s0, vals0⟩ := hd
    simp only [List.map_cons, List.nodup_cons] at hnd
    unfold computeStreamMedians at h
    split at h
    · exact Option.noConfusion h
    next hnp =>
    cases hrest : computeStreamMedians F tl with
    | none =>
      rw [hrest] at h
      exact Option.noConfusion h
    | some ms0 =>
      rw [hrest] at h
      dsimp only at h
      have ihtl := ih ms0 hnd.2 hrest
      by_cases hs : s0 = sid
      · subst hs
        have hnone : lookupA s0 tl = none := lookupA_eq_none_of_not_mem hnd.1
        have hl : lookupA s0 ((s0, vals0) :: tl) = some vals0 := by simp [lookupA]
        rw [hl]
        dsimp only
        split at h
        next hle =>
          injection h with h2
          subst h2
          rw [if_neg (by omega), ihtl, hnone]
        next hgt =>
          injection h with h2
          subst h2
          rw [if_pos (by omega), lookupA_insertA_self]
      · have hl : lookupA sid ((s0, vals0) :: tl) = lookupA sid tl := by
          simp [lookupA, hs]
        rw [hl]
        split at h
        next hle =>
          injection h with h2
          subst h2
          exact ihtl
        next hgt =>
          injection h with h2
          subst h2
          rw [lookupA_insertA_ne _ _ hs]
          exact ihtl

theorem length_filterMap_allsome (vals : List (Option Int))
    (h : ∀ v ∈ vals, v.isSome = true) :
    (vals.filterMap (fun v => v)).length = vals.length := by
  induction vals with
  | nil => rfl
  | cons hd tl ih =>
    cases hhd : hd with
    | none =>
      have := h hd (List.mem_cons_self _ _)
      rw [hhd] at this
      simp at this
    | some v =>
      subst hhd
      simp only [List.filterMap_cons, List.length_cons]
      rw [ih (fun w hw => h w (List.mem_cons_of_mem _ hw))]

theorem getD_map_some (l : List Int) (i : Nat) (h : i < l.length) :
    ((l.map some).getD i none) = some (l.getD i 0) := by
  induction l generalizing i with
  | nil => simp at h
  | cons hd tl ih =>
    cases i with
    | zero => rfl
    | succ j =>
      simp only [List.length_cons] at h
      simp only [List.map_cons, List.getD_cons_succ]
      exact ih j (by omega)

/-- C8: in every outcome produced for seq > 1, a stream id has a
StreamMedians entry exactly when strictly more than F of the counted
observations carried a Valid value for it (vals is the list of those
values, in observation order), and the entry is the element at zero-based
index len/2 of the values sorted in ascending numeric order (stated for
the sorted permutation s of the values; non-nil values are guaranteed by
observation validation and by the absence of the sort panic). -/
theorem c8_stream_medians_characterization (p : LLOPlugin)
    (knownChainSelector : Nat → Bool)
    (addOrder : List (List Nat × ChannelDefinitionWithID) →
      List (List Nat × ChannelDefinitionWithID))
    (seqNr : Nat) (prev : Outcome) (aos : List (Option Observation))
    (acc : OutcomeAccum) (sid : Nat) (vals : List (Option Int)) (out : Outcome)
    (hseq : ¬ seqNr ≤ 1)
    (hacc : accumulateFrom p initialOutcomeAccum aos = some acc)
    (hvals : vals = (lookupA sid acc.streamObservations).getD [])
    (hok : LLOPlugin.Outcome p knownChainSelector addOrder seqNr (some prev) aos
      = .ok out) :
    ((lookupA sid out.StreamMedians).isSome = true ↔ p.F < vals.length) ∧
    (∀ s : List Int, s.Perm (vals.filterMap (fun v => v)) →
      s.Sorted (fun a b => a ≤ b) →
      (∀ v ∈ vals, v.isSome = true) → p.F < vals.length →
      lookupA sid out.StreamMedians = some (some (s.getD (vals.length / 2) 0))) := by
  obtain ⟨acc2, hacc2, hbuild⟩ :=
    outcome_ok_inv p knownChainSelector addOrder seqNr prev aos out hseq hok
  rw [hacc] at hacc2
  injection hacc2 with ha
  subst ha
  obtain ⟨vas0, ts, medians, hvas0, hts, hmed, hout⟩ :=
    buildOutcome_ok_inv p knownChainSelector addOrder prev acc out hbuild
  have hnd : (acc.streamObservations.map Prod.fst).Nodup :=
    accumulateFrom_streamObs_keys_nodup p aos initialOutcomeAccum acc hacc
      (by simp [initialOutcomeAccum])
  have hchar := computeStreamMedians_lookup p.F acc.streamObservations medians sid hnd hmed
  have hsm : out.StreamMedians = medians := by rw [hout]
  rw [hsm, hchar]
  cases hl : lookupA sid acc.streamObservations with
  | none =>
    rw [hl] at hvals
    simp only [Option.getD_none] at hvals
    subst hvals
    dsimp only
    refine ⟨⟨fun hsome => by simp at hsome, fun hlt => absurd hlt (by simp)⟩, ?_⟩
    intro s _ _ _ hlt
    exact absurd hlt (by simp)
  | some vals2 =>
    rw [hl] at hvals
    simp only [Option.getD_some] at hvals
    subst hvals
    dsimp only
    constructor
    · by_cases hlt : p.F < vals.length
      · rw [if_pos hlt]
        simp [hlt]
      · rw [if_neg hlt]
        simp [hlt]
    · intro s hperm hsort hall hlt
      rw [if_pos hlt]
      have halltrue : vals.all (fun v => v.isSome) = true := List.all_eq_true.mpr hall
      have hs : s = List.insertionSort (fun a b => a ≤ b)
          (vals.filterMap (fun v => v)) :=
        List.eq_of_perm_of_sorted
          (hperm.trans (List.perm_insertionSort _ _).symm) hsort
          (List.sorted_insertionSort _ _)
      have hlenfm : (vals.filterMap (fun v => v)).length = vals.length :=
        length_filterMap_allsome vals hall
      have hlensort : (List.insertionSort (fun a b => a ≤ b)
          (vals.filterMap (fun v => v))).length = vals.length := by
        rw [(List.perm_insertionSort _ _).length_eq, hlenfm]
      unfold goSortStreamValues
      rw [if_pos halltrue]
      rw [getD_map_some _ _
        (by rw [hlensort]; exact Nat.div_lt_self (by omega) (by omega))]
      rw [hs]

/-- Concrete plugin for the C8 witness: no predecessor, F = 1. -/
def pC8 : LLOPlugin :=
  { PredecessorConfigDigest := none
    F := 1
    CheckAttestedRetirementReport := fun _ _ => none }

/-- C8 witness observation carrying a single valid value for stream 7. -/
def obsC8 (v : Int) : Observation :=
  { AttestedPredecessorRetirement := []
    ShouldRetire := false
    UnixTimestampNanoseconds := 100
    RemoveChannelIDs := []
    AddChannelDefinitions := []
    StreamValues := [(7, { Valid := true, Val := some v })] }

/-- C8 witness observation list with values 30, 10, 20 for stream 7. -/
def aosC8 : List (Option Observation) :=
  [some (obsC8 30), some (obsC8 10), some (obsC8 20)]

/-- The accumulators for the C8 witness input. -/
def accC8 : OutcomeAccum :=
  { initialOutcomeAccum with
    timestampsNanoseconds := [100, 100, 100]
    streamObservations := [(7, [some 30, some 10, some 20])] }

/-- The collected values for stream 7 in the C8 witness input. -/
def valsC8 : List (Option Int) := [some 30, some 10, some 20]

/-- The outcome produced for the C8 witness input: the median of
[10, 20, 30] at index 1 is 20. -/
def outC8w : Outcome :=
  { LifeCycleStage := "production"
    ObservationsTimestampNanoseconds := 100
    ChannelDefinitions := []
    ValidAfterSeconds := []
    StreamMedians := [(7, some 20)] }

theorem c8_stream_medians_characterization_witness :
    lookupA 7 outC8w.StreamMedians = some (some 20) := by
  have h := c8_stream_medians_characterization pC8 ksAll id 2 prevC4 aosC8 accC8 7
    valsC8 outC8w (by decide) (by rfl) (by rfl) (by rfl)
  exact h.2 [10, 20, 30] (by decide) (by decide) (by decide) (by decide)

/-- The channel ids eligible for a remove vote: present in the previous
outcome definitions or in the previous ValidAfterSeconds keys, but absent
from the expected (cache) definitions. -/
def removeCandidates (previousChannelDefinitions : List (Nat × ChannelDefinition))
    (previousValidAfterSecondsKeys : List Nat)
    (expectedChannelDefs : List (Nat × ChannelDefinition)) : List Nat :=
  ((previousChannelDefinitions.map Prod.fst) ++ previousValidAfterSecondsKeys).filter
    (fun x => (lookupA x expectedChannelDefs).isNone)

theorem buildRemoveChannelIDsLoop_length_le
    (expectedChannelDefs : List (Nat × ChannelDefinition))
    (ks acc : List Nat) (h : acc.length ≤ 5) :
    (buildRemoveChannelIDsLoop expectedChannelDefs acc ks).length ≤ 5 := by
  induction ks generalizing acc with
  | nil => exact h
  | cons k rest ih =>
    unfold buildRemoveChannelIDsLoop
    split
    · exact h
    next hlt =>
    split
    · exact ih acc h
    split
    · exact ih acc h
    · apply ih
      rw [List.length_append]
      have hlt5 : ¬ 5 ≤ acc.length := hlt
      simp only [List.length_singleton]
      omega

theorem buildRemoveChannelIDsLoop_sound
    (expectedChannelDefs : List (Nat × ChannelDefinition))
    (ks acc : List Nat) (x : Nat)
    (h : x ∈ buildRemoveChannelIDsLoop expectedChannelDefs acc ks) :
    x ∈ acc ∨ (x ∈ ks ∧ (lookupA x expectedChannelDefs).isNone = true) := by
  induction ks generalizing acc with
  | nil => exact Or.inl h
  | cons k rest ih =>
    unfold buildRemoveChannelIDsLoop at h
    split at h
    · exact Or.inl h
    next hlt =>
    split at h
    · rcases ih acc h with h2 | h2
      · exact Or.inl h2
      · exact Or.inr ⟨List.mem_cons_of_mem _ h2.1, h2.2⟩
    next hexp =>
    split at h
    · rcases ih acc h with h2 | h2
      · exact Or.inl h2
      · exact Or.inr ⟨List.mem_cons_of_mem _ h2.1, h2.2⟩
    next hmem =>
    rcases ih _ h with h2 | h2
    · rcases List.mem_append.mp h2 with h3 | h3
      · exact Or.inl h3
      · rw [List.mem_singleton] at h3
        subst h3
        refine Or.inr ⟨List.mem_cons_self _ _, ?_⟩
        cases hk : lookupA x expectedChannelDefs with
        | none => rfl
        | some cd => exact absurd (by rw [hk]; rfl) hexp
    · exact Or.inr ⟨List.mem_cons_of_mem _ h2.1, h2.2⟩

theorem buildRemoveChannelIDsLoop_complete
    (expectedChannelDefs : List (Nat × ChannelDefinition)) (U : Finset Nat)
    (hcard : U.card ≤ 5) (ks acc : List Nat)
    (hndacc : acc.Nodup) (haccU : ∀ a ∈ acc, a ∈ U)
    (hksU : ∀ y ∈ ks, (lookupA y expectedChannelDefs).isNone = true → y ∈ U)
    (x : Nat)
    (hx : x ∈ acc ∨ (x ∈ ks ∧ (lookupA x expectedChannelDefs).isNone = true)) :
    x ∈ buildRemoveChannelIDsLoop expectedChannelDefs acc ks := by
  induction ks generalizing acc with
  | nil =>
    rcases hx with h | h
    · exact h
    · exact absurd h.1 (List.not_mem_nil _)
  | cons k rest ih =>
    unfold buildRemoveChannelIDsLoop
    split
    next hlen =>
      rcases hx with h | h
      · exact h
      · have hlen5 : 5 ≤ acc.length := hlen
        have hsub : acc.toFinset ⊆ U := fun a ha => haccU a (List.mem_toFinset.mp ha)
        have hcard2 : acc.toFinset.card = acc.length := List.toFinset_card_of_nodup hndacc
        have hUeq : acc.toFinset = U := Finset.eq_of_subset_of_card_le hsub (by omega)
        have hxU : x ∈ U := hksU x h.1 h.2
        rw [← hUeq] at hxU
        exact List.mem_toFinset.mp hxU
    next hlen =>
    split
    next hexp =>
      apply ih acc hndacc haccU (fun y hy => hksU y (List.mem_cons_of_mem _ hy))
      rcases hx with h | h
      · exact Or.inl h
      · rcases List.mem_cons.mp h.1 with h2 | h2
        · subst h2
          have hno := h.2
          rw [Option.isNone_iff_eq_none] at hno
          rw [hno] at hexp
          exact absurd hexp (by simp)
        · exact Or.inr ⟨h2, h.2⟩
    next hexp =>
    split
    next hmem =>
      apply ih acc hndacc haccU (fun y hy => hksU y (List.mem_cons_of_mem _ hy))
      rcases hx with h | h
      · exact Or.inl h
      · rcases List.mem_cons.mp h.1 with h2 | h2
        · subst h2
          exact Or.inl hmem
        · exact Or.inr ⟨h2, h.2⟩
    next hmem =>
      have hkNone : (lookupA k expectedChannelDefs).isNone = true := by
        cases hk : lookupA k expectedChannelDefs with
        | none => rfl
        | some cd => exact absurd (by rw [hk]; rfl) hexp
      have hnd2 : (acc ++ [k]).Nodup := by
        rw [List.nodup_append]
        exact ⟨hndacc, List.nodup_singleton _, by
          intro a ha hb
          rw [List.mem_singleton] at hb
          subst hb
          exact hmem ha⟩
      apply ih (acc ++ [k]) hnd2
        (fun a ha => by
          rcases List.mem_append.mp ha with h2 | h2
          · exact haccU a h2
          · rw [List.mem_singleton] at h2
            subst h2
            exact hksU a (List.mem_cons_self _ _) hkNone)
        (fun y hy => hksU y (List.mem_cons_of_mem _ hy))
      rcases hx with h | h
      · exact Or.inl (List.mem_append_left _ h)
      · rcases List.mem_cons.mp h.1 with h2 | h2
        · subst h2
          exact Or.inl (List.mem_append_right _ (List.mem_singleton.mpr rfl))
        · exact Or.inr ⟨h2, h.2⟩

theorem mem_base_mem_candidates
    (previousChannelDefinitions expectedChannelDefs : List (Nat × ChannelDefinition))
    (previousValidAfterSecondsKeys : List Nat) (x : Nat)
    (h : x ∈ (subtractChannelDefinitions previousChannelDefinitions expectedChannelDefs
      MAX_OBSERVATION_REMOVE_CHANNEL_IDS_LENGTH).map Prod.fst) :
    x ∈ removeCandidates previousChannelDefinitions previousValidAfterSecondsKeys
      expectedChannelDefs := by
  rw [List.mem_map] at h
  obtain ⟨kv, hkv, hfst⟩ := h
  subst hfst
  simp only [subtractChannelDefinitions] at hkv
  have hkv2 := List.take_subset _ _ hkv
  have hkv3 := (List.perm_insertionSort _ _).mem_iff.mp hkv2
  rw [List.mem_filter] at hkv3
  unfold removeCandidates
  rw [List.mem_filter]
  exact ⟨List.mem_append_left _ (List.mem_map_of_mem _ hkv3.1), hkv3.2⟩

theorem subtract_map_fst_nodup
    (previousChannelDefinitions expectedChannelDefs : List (Nat × ChannelDefinition))
    (hnd : (previousChannelDefinitions.map Prod.fst).Nodup) :
    ((subtractChannelDefinitions previousChannelDefinitions expectedChannelDefs
      MAX_OBSERVATION_REMOVE_CHANNEL_IDS_LENGTH).map Prod.fst).Nodup := by
  unfold subtractChannelDefinitions
  rw [List.map_take]
  apply List.Nodup.sublist (List.take_sublist _ _)
  apply ((List.perm_insertionSort (fun a b => a.1 ≤ b.1) _).map Prod.fst).symm.nodup
  exact List.Nodup.sublist (List.Sublist.map _ (List.filter_sublist _)) hnd

/-- C7 (amended): the remove set never exceeds 5 entries; every entry is a
channel id present in the previous outcome definitions or ValidAfterSeconds
keys and absent from the expected definitions; and whenever there are at
most 5 such candidate ids in total, the set contains exactly all of them.
Under truncation, the ids taken from the ValidAfterSeconds side follow the
map iteration order, not the ascending id order the original claim
states. -/
theorem c7_remove_ids_properties
    (previousChannelDefinitions expectedChannelDefs : List (Nat × ChannelDefinition))
    (previousValidAfterSecondsKeys : List Nat)
    (hnd : (previousChannelDefinitions.map Prod.fst).Nodup) :
    (buildRemoveChannelIDs previousChannelDefinitions previousValidAfterSecondsKeys
      expectedChannelDefs).length ≤ 5 ∧
    (∀ x ∈ buildRemoveChannelIDs previousChannelDefinitions
        previousValidAfterSecondsKeys expectedChannelDefs,
      x ∈ removeCandidates previousChannelDefinitions previousValidAfterSecondsKeys
        expectedChannelDefs) ∧
    ((removeCandidates previousChannelDefinitions previousValidAfterSecondsKeys
        expectedChannelDefs).toFinset.card ≤ 5 →
      ∀ x ∈ removeCandidates previousChannelDefinitions
          previousValidAfterSecondsKeys expectedChannelDefs,
        x ∈ buildRemoveChannelIDs previousChannelDefinitions
          previousValidAfterSecondsKeys expectedChannelDefs) := by
  refine ⟨?_, ?_, ?_⟩
  · apply buildRemoveChannelIDsLoop_length_le
    rw [List.length_map]
    unfold subtractChannelDefinitions
    rw [List.length_take]
    exact min_le_left _ _
  · intro x hx
    rcases buildRemoveChannelIDsLoop_sound expectedChannelDefs
      previousValidAfterSecondsKeys _ x hx with h | h
    · exact mem_base_mem_candidates _ _ _ _ h
    · unfold removeCandidates
      rw [List.mem_filter]
      exact ⟨List.mem_append_right _ h.1, h.2⟩
  · intro hcard x hx
    have hx2 := hx
    unfold removeCandidates at hx2
    rw [List.mem_filter] at hx2
    obtain ⟨hmem, hnone⟩ := hx2
    apply buildRemoveChannelIDsLoop_complete expectedChannelDefs
      ((removeCandidates previousChannelDefinitions previousValidAfterSecondsKeys
        expectedChannelDefs).toFinset) hcard previousValidAfterSecondsKeys _
      (subtract_map_fst_nodup _ _ hnd)
      (fun a ha => List.mem_toFinset.mpr (mem_base_mem_candidates _ _ _ _ ha))
      (fun y hy hyn => List.mem_toFinset.mpr (by
        unfold removeCandidates
        rw [List.mem_filter]
        exact ⟨List.mem_append_right _ hy, hyn⟩))
    rcases List.mem_append.mp hmem with h | h
    · left
      have hxD : x ∈ (previousChannelDefinitions.filter
          (fun kv => (lookupA kv.1 expectedChannelDefs).isNone)).map Prod.fst := by
        rw [List.mem_map] at h ⊢
        obtain ⟨kv, hkv, hfst⟩ := h
        exact ⟨kv, List.mem_filter.mpr ⟨hkv, by rw [hfst]; exact hnone⟩, hfst⟩
      have hDnd : ((previousChannelDefinitions.filter
          (fun kv => (lookupA kv.1 expectedChannelDefs).isNone)).map Prod.fst).Nodup :=
        List.Nodup.sublist (List.Sublist.map _ (List.filter_sublist _)) hnd
      have hDsub : ((previousChannelDefinitions.filter
          (fun kv => (lookupA kv.1 expectedChannelDefs).isNone)).map Prod.fst).toFinset ⊆
          (removeCandidates previousChannelDefinitions previousValidAfterSecondsKeys
            expectedChannelDefs).toFinset := by
        intro a ha
        rw [List.mem_toFinset] at ha ⊢
        rw [List.mem_map] at ha
        obtain ⟨kv, hkv, hfst⟩ := ha
        rw [List.mem_filter] at hkv
        unfold removeCandidates
        rw [List.mem_filter]
        refine ⟨List.mem_append_left _ ?_, ?_⟩
        · rw [← hfst]
          exact List.mem_map_of_mem _ hkv.1
        · rw [← hfst]
          exact hkv.2
      have hDlen : ((previousChannelDefinitions.filter
          (fun kv => (lookupA kv.1 expectedChannelDefs).isNone)).map Prod.fst).length
            ≤ 5 := by
        rw [← List.toFinset_card_of_nodup hDnd]
        exact le_trans (Finset.card_le_card hDsub) hcard
      have hsortlen : (List.insertionSort (fun a b => a.1 ≤ b.1)
          (previousChannelDefinitions.filter
            (fun kv => (lookupA kv.1 expectedChannelDefs).isNone))).length
            ≤ MAX_OBSERVATION_REMOVE_CHANNEL_IDS_LENGTH := by
        rw [(List.perm_insertionSort _ _).length_eq]
        rw [List.length_map] at hDlen
        exact hDlen
      unfold subtractChannelDefinitions
      rw [List.take_of_length_le hsortlen]
      exact ((List.perm_insertionSort (fun a b => a.1 ≤ b.1) _).map Prod.fst).mem_iff.mpr hxD
    · right
      exact ⟨h, hnone⟩

/-- Channel definition used by the C7 witness. -/
def cdC7 : ChannelDefinition := { ReportFormat := "", ChainSelector := 0, StreamIDs := [] }

theorem c7_remove_ids_properties_witness :
    (buildRemoveChannelIDs [(10, cdC7)] [1, 2] []).length ≤ 5 ∧
    1 ∈ buildRemoveChannelIDs [(10, cdC7)] [1, 2] [] :=
  have h := c7_remove_ids_properties [(10, cdC7)] [] [1, 2] (by decide)
  ⟨h.1, h.2.2 (by decide) 1 (by decide)⟩
